import Mathlib

/-!
# Verification of the Light Up ("lightup.c") puzzle core

A shallow embedding of the game-state model, the primitive mutator
`set_light`, the completeness predicates, the deductive solver
(`solve_sub` / `dosolve`), the parameter and descriptor codecs and the
move executor (`execute_move`) of the Light Up puzzle implementation,
together with theorems settling the specification claims about them.

Grid planes are modelled as flat lists indexed by `y * w + x`, exactly
as the C `GRID` macro does; C `unsigned int` flag words become a record
of booleans, one per flag bit; C `int` values that can be negative
(`lit counts`, `nlights`, solver results, move coordinates) become
`Int`; loop nests are folds over the same iteration order as the C
loops (`x` outer and `y` inner for the solver scans, row-major for the
descriptor walks).
-/

set_option maxRecDepth 4000

namespace Lightup

/-- The per-cell flag word of `lightup.c` (`F_BLACK`, `F_NUMBERED`,
`F_NUMBERUSED`, `F_IMPOSSIBLE`, `F_LIGHT`, `F_MARK`), one boolean per bit. -/
structure CellFlags where
  black : Bool := false
  numbered : Bool := false
  numberused : Bool := false
  impossible : Bool := false
  light : Bool := false
  mark : Bool := false
deriving DecidableEq, Repr, Inhabited

/-- `struct game_params` of `lightup.c`.  `recurse` is an `int` in C but is
used strictly as a boolean flag, so it is modelled as `Bool`. -/
structure game_params where
  w : Int
  h : Int
  blackpc : Int
  symm : Int
  recurse : Bool
deriving DecidableEq, Repr

/-- `struct game_state` of `lightup.c`.  `lights` holds, for black squares,
the (optional) clue number and, for non-black squares, the number of times
the square is lit; both planes have `h * w` entries indexed `y * w + x`. -/
structure game_state where
  w : Nat
  h : Nat
  nlights : Int
  lights : List Int
  flags : List CellFlags
  completed : Bool
  used_solve : Bool
deriving DecidableEq, Repr

/-- `GRID(gs,flags,x,y)`: read a cell's flag word. -/
def gridFlags (s : game_state) (x y : Nat) : CellFlags :=
  (s.flags[y * s.w + x]?).getD default

/-- `GRID(gs,lights,x,y)`: read a cell's lit count / clue number. -/
def gridLights (s : game_state) (x y : Nat) : Int :=
  (s.lights[y * s.w + x]?).getD 0

/-- Write a cell's flag word. -/
def putFlags (s : game_state) (x y : Nat) (f : CellFlags) : game_state :=
  { s with flags := s.flags.set (y * s.w + x) f }

/-- Write a cell's lit count / clue number. -/
def putLights (s : game_state) (x y : Nat) (v : Int) : game_state :=
  { s with lights := s.lights.set (y * s.w + x) v }

/-- `get_surrounds`: the 4-neighbourhood of `(ox,oy)`, edge-clipped, in the
order left, right, up, down used by the C code. -/
def get_surrounds (s : game_state) (ox oy : Nat) : List (Nat × Nat) :=
  (if 0 < ox then [(ox - 1, oy)] else []) ++
  (if ox < s.w - 1 then [(ox + 1, oy)] else []) ++
  (if 0 < oy then [(ox, oy - 1)] else []) ++
  (if oy < s.h - 1 then [(ox, oy + 1)] else [])

/-- The `ll_data` structure: the extents of the horizontal and vertical
runs of non-black cells through the origin. -/
structure ll_data where
  ox : Nat
  oy : Nat
  minx : Nat
  maxx : Nat
  miny : Nat
  maxy : Nat
  include_origin : Bool
deriving DecidableEq, Repr

/-- The leftward walk of `list_lights`: starting at column `ox` of row `y`,
step left while the next cell is non-black; the result is `minx`. -/
def scanLeft (s : game_state) (y : Nat) : Nat → Nat
  | 0 => 0
  | x + 1 => if (gridFlags s x y).black then x + 1 else scanLeft s y x

/-- The rightward walk of `list_lights` (fuelled by the grid width):
step right from column `x` of row `y` while still inside the grid and the
next cell is non-black; the result is `maxx`. -/
def scanRight (s : game_state) (y : Nat) : Nat → Nat → Nat
  | x, 0 => x
  | x, fuel + 1 =>
    if x + 1 < s.w ∧ (gridFlags s (x + 1) y).black = false then
      scanRight s y (x + 1) fuel
    else x

/-- The upward walk of `list_lights` (column `x`, starting row): `miny`. -/
def scanUp (s : game_state) (x : Nat) : Nat → Nat
  | 0 => 0
  | y + 1 => if (gridFlags s x y).black then y + 1 else scanUp s x y

/-- The downward walk of `list_lights` (fuelled by the grid height): `maxy`. -/
def scanDown (s : game_state) (x : Nat) : Nat → Nat → Nat
  | y, 0 => y
  | y, fuel + 1 =>
    if y + 1 < s.h ∧ (gridFlags s x (y + 1)).black = false then
      scanDown s x (y + 1) fuel
    else y

/-- `list_lights`: the tiles a light at `(ox,oy)` would illuminate, as the
four half-ray extents; `origin` selects whether the origin itself is
listed by `FOREACHLIT`. -/
def list_lights (s : game_state) (ox oy : Nat) (origin : Bool) : ll_data :=
  { ox := ox, oy := oy
    minx := scanLeft s oy ox
    maxx := scanRight s oy ox s.w
    miny := scanUp s ox oy
    maxy := scanDown s ox oy s.h
    include_origin := origin }

/-- `FOREACHLIT`: the cells visited, in order — the row segment
`[minx..maxx]` minus the origin column, then the column segment
`[miny..maxy]` with the origin kept or dropped per `include_origin`. -/
def foreachLit (lld : ll_data) : List (Nat × Nat) :=
  ((List.range' lld.minx (lld.maxx + 1 - lld.minx)).filter
      (fun lx => lx ≠ lld.ox)).map (fun lx => (lx, lld.oy)) ++
  ((List.range' lld.miny (lld.maxy + 1 - lld.miny)).filter
      (fun ly => lld.include_origin || ly ≠ lld.oy)).map (fun ly => (lld.ox, ly))

/-- `set_light`: make sure the light at `(ox,oy)` is in the given state,
updating the `LIGHT` flag, `nlights` and the lit counts of every cell the
light reaches (origin included) when the state actually changes. -/
def set_light (s : game_state) (ox oy : Nat) (onv : Bool) : game_state :=
  let f := gridFlags s ox oy
  if onv = f.light then s
  else
    let s1 := putFlags s ox oy { f with light := onv }
    let s2 := { s1 with nlights := s1.nlights + (if onv then 1 else -1) }
    let diff : Int := if onv then 1 else -1
    (foreachLit (list_lights s2 ox oy true)).foldl
      (fun st c => putLights st c.1 c.2 (gridLights st c.1 c.2 + diff)) s2

/-- The iteration order of the solver's cell scans: `x` outer, `y` inner,
exactly as the C `for (x …) for (y …)` nests. -/
def cellList (s : game_state) : List (Nat × Nat) :=
  (List.range s.w).flatMap (fun x => (List.range s.h).map (fun y => (x, y)))

/-- The row-major iteration order (`y` outer, `x` inner) of the descriptor
walks. -/
def cellListRM (s : game_state) : List (Nat × Nat) :=
  (List.range s.h).flatMap (fun y => (List.range s.w).map (fun x => (x, y)))

/-- `grid_lit`: every non-black cell has a nonzero lit count. -/
def grid_lit (s : game_state) : Bool :=
  (cellList s).all (fun c =>
    (gridFlags s c.1 c.2).black || !(gridLights s c.1 c.2 = 0))

/-- `grid_overlap`: some cell carrying a light has lit count above 1. -/
def grid_overlap (s : game_state) : Bool :=
  (cellList s).any (fun c =>
    (gridFlags s c.1 c.2).light && decide (1 < gridLights s c.1 c.2))

/-- `number_correct`: a numbered cell's `LIGHT` neighbours match its clue. -/
def number_correct (s : game_state) (x y : Nat) : Bool :=
  decide ((((get_surrounds s x y).filter
    (fun p => (gridFlags s p.1 p.2).light)).length : Int) = gridLights s x y)

/-- `grid_addsup`: every numbered cell is `number_correct`. -/
def grid_addsup (s : game_state) : Bool :=
  (cellList s).all (fun c =>
    !(gridFlags s c.1 c.2).numbered || number_correct s c.1 c.2)

/-- `grid_correct`: lit everywhere, no overlap, and all numbers add up. -/
def grid_correct (s : game_state) : Bool :=
  grid_lit s && !grid_overlap s && grid_addsup s

/-- The number of cells whose `LIGHT` flag is set (what `nlights` is
supposed to track). -/
def lightFlagCount (s : game_state) : Nat :=
  s.flags.countP (fun f => f.light)

/-- `could_place_light`: a light may still be placed on a cell that is
neither black nor marked impossible and whose lit count is not positive. -/
def could_place_light (flags : CellFlags) (lights : Int) : Bool :=
  if flags.black || flags.impossible then false
  else !decide (0 < lights)

/-- The candidate positions scanned by `try_solve_light` via
`tsl_callback`: cells reachable from the origin that are neither marked
impossible nor already lit. -/
def tsl_candidates (s : game_state) (ox oy : Nat) : List (Nat × Nat) :=
  (foreachLit (list_lights s ox oy true)).filter
    (fun c => !(gridFlags s c.1 c.2).impossible && !decide (0 < gridLights s c.1 c.2))

/-- `try_solve_light`: if an unlit non-black cell can be lit from exactly
one position, place a light there.  `flags` and `lights` are the values the
scan loop read for this cell, as in the C call sites. -/
def try_solve_light (s : game_state) (ox oy : Nat)
    (flags : CellFlags) (lights : Int) : game_state × Bool :=
  if 0 < lights then (s, false)
  else if flags.black then (s, false)
  else
    match tsl_candidates s ox oy with
    | [c] => (set_light s c.1 c.2 true, true)
    | _ => (s, false)

/-- `try_solve_number`: for the numbered cell `(nx,ny)` with the scanned
flag word `nflags` and clue `nlights`, either mark all remaining
neighbours impossible (clue already satisfied) or fill them all with
lights (clue needs every remaining space). -/
def try_solve_number (s : game_state) (nx ny : Nat)
    (nflags : CellFlags) (nlights : Int) : game_state × Bool :=
  if !nflags.numbered then (s, false)
  else
    let pts := get_surrounds s nx ny
    let placed := (pts.filter (fun p => (gridFlags s p.1 p.2).light)).length
    let unmarked := pts.filter (fun p =>
      !(gridFlags s p.1 p.2).light &&
        could_place_light (gridFlags s p.1 p.2) (gridLights s p.1 p.2))
    let nl : Int := nlights - placed
    let ns : Nat := unmarked.length
    if ns = 0 then (s, false)
    else if nl = 0 then
      let s := putFlags s nx ny { gridFlags s nx ny with numberused := true }
      (unmarked.foldl (fun st p =>
        putFlags st p.1 p.2 { gridFlags st p.1 p.2 with impossible := true }) s,
       true)
    else if nl = (ns : Int) then
      let s := putFlags s nx ny { gridFlags s nx ny with numberused := true }
      (unmarked.foldl (fun st p => set_light st p.1 p.2 true) s, true)
    else (s, false)

/-- One full propagation pass of `solve_sub`'s inner double loop: runs
`try_solve_light` and `try_solve_number` on every cell in scan order,
accumulating `didstuff` and `ncanplace`. -/
def solve_pass (s : game_state) : game_state × Bool × Nat :=
  (cellList s).foldl
    (fun acc c =>
      let (s, didstuff, ncanplace) := acc
      let flags := gridFlags s c.1 c.2
      let lights := gridLights s c.1 c.2
      let ncanplace := ncanplace + (if could_place_light flags lights then 1 else 0)
      let (s, d1) := try_solve_light s c.1 c.2 flags lights
      let (s, d2) := try_solve_number s c.1 c.2 flags lights
      (s, didstuff || d1 || d2, ncanplace))
    (s, false, 0)

/-- The number of currently-unlit squares a light at `c` would light
(the origin included), as counted at the solver's branching step. -/
def branch_score (s : game_state) (c : Nat × Nat) : Int :=
  ((foreachLit (list_lights s c.1 c.2 true)).filter
    (fun d => gridLights s d.1 d.2 = 0)).length

/-- The branching-cell choice of `solve_sub`: scan all cells where a light
could be placed and keep the first one maximising `branch_score`, starting
from the sentinel `(bestn, bestx, besty) = (0, -1, -1)`. -/
def choose_best (s : game_state) : Int × Int × Int :=
  (cellList s).foldl
    (fun acc c =>
      if could_place_light (gridFlags s c.1 c.2) (gridLights s c.1 c.2) then
        if branch_score s c > acc.1 then (branch_score s c, (c.1 : Int), (c.2 : Int))
        else acc
      else acc)
    (0, -1, -1)

/-- `solve_sub`, with explicit fuel for the outer `while (1)` loop and the
recursion.  Returns the solution count (`> 0` solved, `0` insoluble, `-1`
recursion budget exceeded), the final state, and the deepest recursion
level reached (the `*maxdepth` out-parameter). -/
def solve_sub : Nat → game_state → Bool → Nat → Nat → Nat → Option (Int × game_state × Nat)
  | 0, _, _, _, _, _ => none
  | fuel + 1, s, forceunique, maxrecurse, depth, md0 =>
    let md := max md0 depth
    if grid_overlap s then some (0, s, md)
    else if grid_correct s then some (1, s, md)
    else
      match solve_pass s with
      | (s, didstuff, ncanplace) =>
        if didstuff then solve_sub fuel s forceunique maxrecurse depth md
        else if ncanplace = 0 then some (0, s, md)
        else if maxrecurse ≤ depth then some (-1, s, md)
        else
          match choose_best s with
          | (_, bx, bpy) =>
            let bestx := bx.toNat
            let besty := bpy.toNat
            let scopy := s
            let s1 := putFlags s bestx besty
              { gridFlags s bestx besty with impossible := true }
            match solve_sub fuel s1 forceunique maxrecurse (depth + 1) md with
            | none => none
            | some (selfsol, s2, md1) =>
              if forceunique = false ∧ 0 < selfsol then some (selfsol, s2, md1)
              else
                let scopy1 := set_light scopy bestx besty true
                match solve_sub fuel scopy1 forceunique maxrecurse (depth + 1) md1 with
                | none => none
                | some (copysol, scopy2, md2) =>
                  if forceunique = true ∧ (copysol < 0 ∨ selfsol < 0) then
                    some (-1, s2, md2)
                  else if copysol ≤ 0 then some (selfsol, s2, md2)
                  else if selfsol ≤ 0 then
                    some (copysol,
                      { s2 with lights := scopy2.lights, flags := scopy2.flags }, md2)
                  else some (copysol + selfsol, s2, md2)

/-- `MAXRECURSE`. -/
def MAXRECURSE : Nat := 5

/-- `dosolve`: clear every `NUMBER_USED` flag, then run `solve_sub` with
recursion allowed up to `MAXRECURSE` levels when guessing is permitted and
none otherwise. -/
def dosolve (fuel : Nat) (s : game_state) (allowguess forceunique : Bool) :
    Option (Int × game_state × Nat) :=
  let s := (cellList s).foldl
    (fun st c => putFlags st c.1 c.2 { gridFlags st c.1 c.2 with numberused := false }) s
  solve_sub fuel s forceunique (if allowguess then MAXRECURSE else 0) 0 0

/-! ## Decimal numerals: `sprintf("%d", …)`, `atoi` and the `sscanf` digit loop -/

/-- The character for a single decimal digit. -/
def digitChar (r : Nat) : Char :=
  match r with
  | 0 => '0' | 1 => '1' | 2 => '2' | 3 => '3' | 4 => '4'
  | 5 => '5' | 6 => '6' | 7 => '7' | 8 => '8' | 9 => '9'
  | _ => '!'

/-- The decimal digit string of a natural number (`sprintf("%d", n)` for
`n ≥ 0`). -/
def natDec (n : Nat) : List Char :=
  if h : n < 10 then [digitChar n]
  else natDec (n / 10) ++ [digitChar (n % 10)]
termination_by n
decreasing_by exact Nat.div_lt_self (by omega) (by omega)

/-- `sprintf("%d", i)` for a (possibly negative) integer. -/
def intDec (i : Int) : List Char :=
  if i < 0 then '-' :: natDec i.natAbs else natDec i.toNat

/-- The common digit-consuming loop of `atoi` and `sscanf("%d")`:
accumulate decimal digits from the front of the string, returning the
value and the unconsumed remainder. -/
def readDigits : List Char → Nat → Nat × List Char
  | [], acc => (acc, [])
  | c :: cs, acc =>
    if c.isDigit then readDigits cs (acc * 10 + (c.toNat - 48)) else (acc, c :: cs)

/-- The whitespace class of C's `isspace` in the default locale. -/
def isCWhite (c : Char) : Bool :=
  c = ' ' || c = '\t' || c = '\n' || c = Char.ofNat 11 || c = Char.ofNat 12 || c = '\r'

/-- C `atoi`: skip whitespace, read an optional sign and then leading
digits (zero digits give 0). -/
def atoi (cs : List Char) : Int :=
  match cs.dropWhile isCWhite with
  | [] => 0
  | c :: d2 =>
    if c = '-' then -(((readDigits d2 0).1 : Int))
    else if c = '+' then ((readDigits d2 0).1 : Int)
    else ((readDigits (c :: d2) 0).1 : Int)

/-- The `EATNUM` macro: the value `atoi` reads at the current position,
and the position advanced over the leading digits (only over digits — a
sign or whitespace is not skipped, exactly as in the C macro). -/
def eatnum (cs : List Char) : Int × List Char :=
  (atoi cs, cs.dropWhile Char.isDigit)

/-! ## Parameter codec -/

/-- `decode_params`: parse `WxHbBsS` with an optional trailing `r`,
updating the given parameter record field by field (fields whose markers
are missing keep their previous values; `recurse` is always reset). -/
def decode_params (params : game_params) (d : List Char) : game_params :=
  let p1 := eatnum d
  let params := { params with w := p1.1 }
  let st2 : game_params × List Char :=
    match p1.2 with
    | c :: d2 => if c = 'x' then (let p := eatnum d2; ({ params with h := p.1 }, p.2))
                 else (params, c :: d2)
    | [] => (params, [])
  let st3 : game_params × List Char :=
    match st2.2 with
    | c :: d2 => if c = 'b' then (let p := eatnum d2; ({ st2.1 with blackpc := p.1 }, p.2))
                 else (st2.1, c :: d2)
    | [] => (st2.1, [])
  let st4 : game_params × List Char :=
    match st3.2 with
    | c :: d2 => if c = 's' then (let p := eatnum d2; ({ st3.1 with symm := p.1 }, p.2))
                 else (st3.1, c :: d2)
    | [] => (st3.1, [])
  match st4.2 with
  | c :: _ => if c = 'r' then { st4.1 with recurse := true }
              else { st4.1 with recurse := false }
  | [] => { st4.1 with recurse := false }

/-- `encode_params`: `sprintf("%dx%db%ds%d%s")` when `full`, else
`sprintf("%dx%d")`. -/
def encode_params (p : game_params) (full : Bool) : List Char :=
  if full then
    intDec p.w ++ 'x' :: intDec p.h ++ 'b' :: intDec p.blackpc ++
      's' :: intDec p.symm ++ (if p.recurse then ['r'] else [])
  else intDec p.w ++ 'x' :: intDec p.h

/-! ## Descriptor codec -/

/-- `new_state`: an all-empty grid of the given dimensions. -/
def new_state (p : game_params) : game_state :=
  { w := p.w.toNat
    h := p.h.toNat
    nlights := 0
    lights := List.replicate (p.w.toNat * p.h.toNat) 0
    flags := List.replicate (p.w.toNat * p.h.toNat) default
    completed := false
    used_solve := false }

/-- One cell of the `new_game` descriptor walk: a digit makes a numbered
black square (the digit falls through to the black case in the C switch),
`B` a plain black square, anything else leaves the cell empty. -/
def new_game_cell (s : game_state) (x y : Nat) (c : Char) : game_state :=
  if '0' ≤ c ∧ c ≤ '4' then
    putLights (putFlags s x y { gridFlags s x y with numbered := true, black := true })
      x y ((c.toNat : Int) - 48)
  else if c = 'B' then putFlags s x y { gridFlags s x y with black := true }
  else s

/-- One step of the `new_game` descriptor walk over a cell: consume the
next character when no run is pending, start a run for `a`..`z` (the
current cell is the first white square of the run), or continue a run. -/
def new_game_step (acc : game_state × List Char × Nat) (cell : Nat × Nat) :
    game_state × List Char × Nat :=
  let (s, d, run) := acc
  if run = 0 then
    match d with
    | [] => (s, [], 0)
    | c :: d2 =>
      if 'a' ≤ c ∧ c ≤ 'z' then (s, d2, c.toNat - 97)
      else (new_game_cell s cell.1 cell.2 c, d2, 0)
  else (s, d, run - 1)

/-- `new_game`: decode a descriptor onto a fresh state, walking the cells
row-major and expanding `a`..`z` into runs of empty squares. -/
def new_game (p : game_params) (desc : List Char) : game_state :=
  let s0 := new_state p
  ((cellListRM s0).foldl new_game_step (s0, desc, 0)).1

/-- The loop of `validate_desc`: walk the descriptor keeping the cell
index `i`, stopping at the first bad character or premature end; `target`
is `w*h` as a C `int`. -/
def vdGo (target : Int) : Nat → List Char → Option String × Nat × List Char
  | i, [] =>
    if (i : Int) < target then (some "Game description shorter than expected", i, [])
    else (none, i, [])
  | i, c :: d2 =>
    if (i : Int) < target then
      if ('0' ≤ c ∧ c ≤ '4') ∨ c = 'B' then vdGo target (i + 1) d2
      else if 'a' ≤ c ∧ c ≤ 'z' then vdGo target (i + (c.toNat - 97) + 1) d2
      else (some "Game description contained unexpected character", i, c :: d2)
    else (none, i, c :: d2)

/-- `validate_desc`: run the walk and then reject leftover characters or
an index that overran `w*h`. -/
def validate_desc (p : game_params) (d : List Char) : Option String :=
  match vdGo (p.w * p.h) 0 d with
  | (some e, _, _) => some e
  | (none, i, rest) =>
    if rest ≠ [] ∨ p.w * p.h < (i : Int) then
      some "Game description longer than expected"
    else none

/-- The character classes `validate_desc` accepts. -/
def isLegalDescChar (c : Char) : Bool :=
  (decide ('0' ≤ c ∧ c ≤ '4')) || c = 'B' || (decide ('a' ≤ c ∧ c ≤ 'z'))

/-- How many cells a descriptor character stands for: a digit or `B` is
one cell, a letter `a`..`z` a run of 1..26 white cells. -/
def descCharCount (c : Char) : Nat :=
  if 'a' ≤ c ∧ c ≤ 'z' then c.toNat - 96 else 1

/-- The total number of cells a descriptor decodes to. -/
def descCount (d : List Char) : Nat :=
  (d.map descCharCount).sum

/-! ## Move executor -/

/-- The sign-and-digits tail of a `%d` conversion: require at least one
digit, then read the digit run, negating when a `-` sign was seen. -/
def scanfDigits (d : List Char) (neg : Bool) : Option (Int × List Char) :=
  match d with
  | [] => none
  | c :: _ =>
    if c.isDigit then
      some ((if neg then -(((readDigits d 0).1 : Int)) else ((readDigits d 0).1 : Int)),
        (readDigits d 0).2)
    else none

/-- One `%d` conversion of `sscanf`: skip whitespace, accept an optional
sign, and require at least one digit. -/
def scanfInt (cs : List Char) : Option (Int × List Char) :=
  match cs.dropWhile isCWhite with
  | [] => none
  | c :: rest0 =>
    if c = '-' then scanfDigits rest0 true
    else if c = '+' then scanfDigits rest0 false
    else scanfDigits (c :: rest0) false

/-- `sscanf(move, "%d,%d%n", …)`: both conversions must succeed, with a
literal comma between them; returns the two values and the remainder of
the string. -/
def parsePair (cs : List Char) : Option (Int × Int × List Char) :=
  match scanfInt cs with
  | none => none
  | some (x, r1) =>
    match r1 with
    | [] => none
    | c :: r2 =>
      if c = ',' then
        match scanfInt r2 with
        | none => none
        | some (y, r3) => some (x, y, r3)
      else none

/-- `readDigits` only consumes characters. -/
theorem readDigits_length_le : ∀ (cs : List Char) (acc : Nat),
    ((readDigits cs acc).2).length ≤ cs.length
  | [], _ => Nat.le_refl _
  | c :: cs, acc => by
    rw [readDigits]
    by_cases hd : c.isDigit
    · simp only [hd, if_true]
      exact Nat.le_trans (readDigits_length_le cs _) (Nat.le_succ _)
    · simp [hd]

/-- `scanfDigits` only consumes characters. -/
theorem scanfDigits_length_le {d : List Char} {neg : Bool} {v : Int} {rest : List Char}
    (h : scanfDigits d neg = some (v, rest)) : rest.length <= d.length := by
  unfold scanfDigits at h
  rcases d with _ | ⟨c, d2⟩
  · exact absurd h (by simp)
  · by_cases hd : c.isDigit
    · simp only [hd, if_true, Option.some.injEq, Prod.mk.injEq] at h
      have := readDigits_length_le (c :: d2) 0
      obtain ⟨-, hr⟩ := h
      subst hr
      omega
    · simp [hd] at h

/-- `scanfInt` only consumes characters. -/
theorem scanfInt_length_le {cs : List Char} {v : Int} {rest : List Char}
    (h : scanfInt cs = some (v, rest)) : rest.length <= cs.length := by
  have hdw : (cs.dropWhile isCWhite).length <= cs.length := (List.dropWhile_sublist isCWhite).length_le
  unfold scanfInt at h
  rcases hcs : cs.dropWhile isCWhite with _ | ⟨c, rest0⟩ <;> rw [hcs] at h
  · exact absurd h (by simp)
  · rw [hcs] at hdw
    by_cases hm : c = '-'
    · simp only [hm, if_true] at h
      have := scanfDigits_length_le h
      simp at hdw
      omega
    · by_cases hp : c = '+'
      · simp only [hm, hp, if_false, if_true] at h
        have := scanfDigits_length_le h
        simp at hdw
        omega
      · simp only [hm, hp, if_false] at h
        have := scanfDigits_length_le h
        omega

/-- `parsePair` only consumes characters. -/
theorem parsePair_length_le {cs : List Char} {x y : Int} {rest : List Char}
    (h : parsePair cs = some (x, y, rest)) : rest.length <= cs.length := by
  unfold parsePair at h
  rcases h1 : scanfInt cs with _ | ⟨xv, r1⟩ <;> rw [h1] at h
  · exact absurd h (by simp)
  · rcases r1 with _ | ⟨c1, r2⟩
    · exact absurd h (by simp)
    · by_cases hc : c1 = ','
      · simp only [hc, if_true] at h
        rcases h2 : scanfInt r2 with _ | ⟨yv, r3⟩ <;> rw [h2] at h
        · exact absurd h (by simp)
        · simp only [Option.some.injEq, Prod.mk.injEq] at h
          have l1 := scanfInt_length_le h1
          have l2 := scanfInt_length_le h2
          obtain ⟨-, -, hr⟩ := h
          subst hr
          simp only [List.length_cons] at l1
          omega
      · simp [hc] at h

/-- The command loop of `execute_move`, acting on the duplicated state:
process one `;`-separated command per step, aborting the whole move on any
parse failure, out-of-range coordinate, or black target cell (`badmove`).
The fuel argument only serves structural recursion: every step consumes at
least one character, so any fuel of at least the string length gives the
loop's exact semantics (`execute_move` passes the length). -/
def exec_cmds : Nat → game_state → List Char → Option game_state
  | _, s, [] => some s
  | 0, _, _ :: _ => none
  | fuel + 1, s, c :: cs =>
    if c = 'S' then
      match cs with
      | [] => some { s with used_solve := true }
      | c2 :: r =>
        if c2 = ';' then exec_cmds fuel { s with used_solve := true } r else none
    else if c = 'L' ∨ c = 'I' then
      match parsePair cs with
      | none => none
      | some (xi, yi, rest) =>
        if xi < 0 ∨ yi < 0 ∨ (s.w : Int) ≤ xi ∨ (s.h : Int) ≤ yi then none
        else
          let x := xi.toNat
          let y := yi.toNat
          let f := gridFlags s x y
          if f.black then none
          else
            let s2 :=
              if c = 'L' then
                set_light (putFlags s x y { f with impossible := false }) x y (!f.light)
              else
                let st := set_light s x y false
                putFlags st x y
                  { gridFlags st x y with impossible := !(gridFlags st x y).impossible }
            match rest with
            | [] => some s2
            | c2 :: r => if c2 = ';' then exec_cmds fuel s2 r else none
    else none

/-- `execute_move`: duplicate the state, run the command loop, and latch
`completed` when the resulting grid is fully correct; an empty move or any
bad command yields no state. -/
def execute_move (s : game_state) (m : List Char) : Option game_state :=
  if m = [] then none
  else
    match exec_cmds m.length s m with
    | none => none
    | some t => some (if grid_correct t then { t with completed := true } else t)

/-! ## Specification-level definitions used to state the claims -/

/-- The specification's notion of a well-formed move over a state: every
`;`-separated command parses, its coordinates are in range, and its target
cell is not black (the black test is against the state the move is applied
to, whose black plane no command can change).  Fuelled like `exec_cmds`. -/
def goodCmds : Nat → game_state → List Char → Bool
  | _, _, [] => true
  | 0, _, _ :: _ => false
  | fuel + 1, s, c :: cs =>
    if c = 'S' then
      match cs with
      | [] => true
      | c2 :: r => if c2 = ';' then goodCmds fuel s r else false
    else if c = 'L' ∨ c = 'I' then
      match parsePair cs with
      | none => false
      | some (xi, yi, rest) =>
        if xi < 0 ∨ yi < 0 ∨ (s.w : Int) ≤ xi ∨ (s.h : Int) ≤ yi then false
        else if (gridFlags s xi.toNat yi.toNat).black then false
        else
          match rest with
          | [] => true
          | c2 :: r => if c2 = ';' then goodCmds fuel s r else false
    else false

/-- A move string is well formed for a state when every command checks out
(`goodCmds` with adequate fuel). -/
def goodMove (s : game_state) (m : List Char) : Bool :=
  goodCmds m.length s m

/-- The basic well-formedness of a state: both planes have exactly
`w * h` entries and `nlights` agrees with the number of `LIGHT` flags. -/
def stateInv (s : game_state) : Prop :=
  s.flags.length = s.w * s.h ∧ s.lights.length = s.w * s.h ∧
    s.nlights = (lightFlagCount s : Int)

/-- States reachable from a fresh game by executed moves. -/
inductive Reachable : game_state → Prop
  | fresh (p : game_params) (d : List Char) : Reachable (new_game p d)
  | mv (s s2 : game_state) (m : List Char) :
      Reachable s → execute_move s m = some s2 → Reachable s2

/-- Every cell of the row segment `[a..b]` of row `y` is non-black. -/
def rowClear (s : game_state) (y a b : Nat) : Prop :=
  ∀ t, a ≤ t → t ≤ b → (gridFlags s t y).black = false

/-- Every cell of the column segment `[a..b]` of column `x` is non-black. -/
def colClear (s : game_state) (x a b : Nat) : Prop :=
  ∀ t, a ≤ t → t ≤ b → (gridFlags s x t).black = false

/-- The declarative visibility relation of the specification: `(a,b)` is
visible from `(ox,oy)` iff they share a row or a column and every cell
between them (both endpoints included) is non-black and in range. -/
def sees (s : game_state) (ox oy a b : Nat) : Prop :=
  (b = oy ∧ a < s.w ∧ rowClear s oy (min a ox) (max a ox)) ∨
  (a = ox ∧ b < s.h ∧ colClear s ox (min b oy) (max b oy))

/-! ## Concrete states used by the counterexamples and witnesses -/

/-- A 2×2 parameter record (`SYMM_NONE`, easy). -/
def params2x2 : game_params :=
  { w := 2, h := 2, blackpc := 20, symm := 0, recurse := false }

/-- The fresh 2×2 all-white game, decoded from the descriptor `"d"`. -/
def allWhite2x2 : game_state := new_game params2x2 ['d']

/-- The 2×2 all-white game after the executed move `I0,0` (an
`IMPOSSIBLE` mark on the top-left cell). -/
def imp2x2 : game_state :=
  (execute_move allWhite2x2 ("I0,0".toList)).getD allWhite2x2

/-- A 1×1 parameter record. -/
def params1x1 : game_params :=
  { w := 1, h := 1, blackpc := 20, symm := 0, recurse := false }

/-- The fresh 1×1 all-white game, decoded from the descriptor `"a"`. -/
def allWhite1x1 : game_state := new_game params1x1 ['a']

/-- The 1×1 game after the executed move `L0,0`, which completes it. -/
def done1x1 : game_state :=
  (execute_move allWhite1x1 ("L0,0".toList)).getD allWhite1x1

/-- The completed 1×1 game after a further executed move `I0,0` (which
removes the light again and marks the cell impossible). -/
def imp1x1 : game_state :=
  (execute_move done1x1 ("I0,0".toList)).getD done1x1

/-! ## Grid update lemmas -/

theorem putFlags_fields (s : game_state) (x y : Nat) (f : CellFlags) :
    (putFlags s x y f).w = s.w ∧ (putFlags s x y f).h = s.h ∧
      (putFlags s x y f).nlights = s.nlights ∧
      (putFlags s x y f).lights = s.lights ∧
      (putFlags s x y f).completed = s.completed ∧
      (putFlags s x y f).used_solve = s.used_solve ∧
      (putFlags s x y f).flags.length = s.flags.length := by
  unfold putFlags
  refine ⟨rfl, rfl, rfl, rfl, rfl, rfl, ?_⟩
  simp

theorem putLights_fields (s : game_state) (x y : Nat) (v : Int) :
    (putLights s x y v).w = s.w ∧ (putLights s x y v).h = s.h ∧
      (putLights s x y v).nlights = s.nlights ∧
      (putLights s x y v).flags = s.flags ∧
      (putLights s x y v).completed = s.completed ∧
      (putLights s x y v).used_solve = s.used_solve ∧
      (putLights s x y v).lights.length = s.lights.length := by
  unfold putLights
  refine ⟨rfl, rfl, rfl, rfl, rfl, rfl, ?_⟩
  simp

theorem gridFlags_putFlags (s : game_state) (x y : Nat) (f : CellFlags) (a b : Nat) :
    gridFlags (putFlags s x y f) a b =
      if y * s.w + x = b * s.w + a ∧ y * s.w + x < s.flags.length then f
      else gridFlags s a b := by
  unfold gridFlags putFlags
  simp only
  rw [List.getElem?_set]
  by_cases hij : y * s.w + x = b * s.w + a
  · rw [if_pos hij]
    by_cases hlt : y * s.w + x < s.flags.length
    · rw [if_pos hlt, if_pos ⟨hij, hlt⟩]
      rfl
    · rw [if_neg hlt, if_neg (by intro hc; exact hlt hc.2)]
      rw [← hij, List.getElem?_eq_none (by omega)]
  · rw [if_neg hij, if_neg (by intro hc; exact hij hc.1)]

theorem gridLights_putLights (s : game_state) (x y : Nat) (v : Int) (a b : Nat) :
    gridLights (putLights s x y v) a b =
      if y * s.w + x = b * s.w + a ∧ y * s.w + x < s.lights.length then v
      else gridLights s a b := by
  unfold gridLights putLights
  simp only
  rw [List.getElem?_set]
  by_cases hij : y * s.w + x = b * s.w + a
  · rw [if_pos hij]
    by_cases hlt : y * s.w + x < s.lights.length
    · rw [if_pos hlt, if_pos ⟨hij, hlt⟩]
      rfl
    · rw [if_neg hlt, if_neg (by intro hc; exact hlt hc.2)]
      rw [← hij, List.getElem?_eq_none (by omega)]
  · rw [if_neg hij, if_neg (by intro hc; exact hij hc.1)]

theorem gridFlags_putLights (s : game_state) (x y : Nat) (v : Int) (a b : Nat) :
    gridFlags (putLights s x y v) a b = gridFlags s a b := rfl

theorem gridLights_putFlags (s : game_state) (x y : Nat) (f : CellFlags) (a b : Nat) :
    gridLights (putFlags s x y f) a b = gridLights s a b := rfl

/-- The index of an in-range cell is within a `w * h` plane. -/
theorem gridIdx_lt {w h x y : Nat} (hx : x < w) (hy : y < h) : y * w + x < w * h := by
  calc y * w + x < y * w + w := by omega
  _ = (y + 1) * w := by ring
  _ ≤ h * w := Nat.mul_le_mul_right _ (by omega)
  _ = w * h := Nat.mul_comm _ _

theorem foldl_putLights_frame (f : game_state → Nat × Nat → Int) :
    ∀ (l : List (Nat × Nat)) (s : game_state),
      (l.foldl (fun st c => putLights st c.1 c.2 (f st c)) s).w = s.w ∧
      (l.foldl (fun st c => putLights st c.1 c.2 (f st c)) s).h = s.h ∧
      (l.foldl (fun st c => putLights st c.1 c.2 (f st c)) s).nlights = s.nlights ∧
      (l.foldl (fun st c => putLights st c.1 c.2 (f st c)) s).flags = s.flags ∧
      (l.foldl (fun st c => putLights st c.1 c.2 (f st c)) s).completed = s.completed ∧
      (l.foldl (fun st c => putLights st c.1 c.2 (f st c)) s).used_solve = s.used_solve ∧
      (l.foldl (fun st c => putLights st c.1 c.2 (f st c)) s).lights.length =
        s.lights.length := by
  intro l
  induction l with
  | nil => intro s; exact ⟨rfl, rfl, rfl, rfl, rfl, rfl, rfl⟩
  | cons c tl ih =>
    intro s
    have h1 := putLights_fields s c.1 c.2 (f s c)
    have h2 := ih (putLights s c.1 c.2 (f s c))
    simp only [List.foldl_cons]
    exact ⟨h2.1.trans h1.1, h2.2.1.trans h1.2.1, h2.2.2.1.trans h1.2.2.1,
      h2.2.2.2.1.trans h1.2.2.2.1, h2.2.2.2.2.1.trans h1.2.2.2.2.1,
      h2.2.2.2.2.2.1.trans h1.2.2.2.2.2.1, h2.2.2.2.2.2.2.trans h1.2.2.2.2.2.2⟩

theorem set_light_of_eq {s : game_state} {x y : Nat} {onv : Bool}
    (h : onv = (gridFlags s x y).light) : set_light s x y onv = s := by
  unfold set_light
  rw [if_pos h]

theorem set_light_flags {s : game_state} {x y : Nat} {onv : Bool}
    (h : ¬(onv = (gridFlags s x y).light)) :
    (set_light s x y onv).flags =
      s.flags.set (y * s.w + x) { gridFlags s x y with light := onv } := by
  unfold set_light
  rw [if_neg h]
  exact (foldl_putLights_frame _ _ _).2.2.2.1

theorem set_light_nlights {s : game_state} {x y : Nat} {onv : Bool}
    (h : ¬(onv = (gridFlags s x y).light)) :
    (set_light s x y onv).nlights = s.nlights + (if onv then 1 else -1) := by
  unfold set_light
  rw [if_neg h]
  exact (foldl_putLights_frame _ _ _).2.2.1

theorem set_light_fields (s : game_state) (x y : Nat) (onv : Bool) :
    (set_light s x y onv).w = s.w ∧ (set_light s x y onv).h = s.h ∧
      (set_light s x y onv).completed = s.completed ∧
      (set_light s x y onv).used_solve = s.used_solve ∧
      (set_light s x y onv).flags.length = s.flags.length ∧
      (set_light s x y onv).lights.length = s.lights.length := by
  by_cases he : onv = (gridFlags s x y).light
  · rw [set_light_of_eq he]
    exact ⟨rfl, rfl, rfl, rfl, rfl, rfl⟩
  · unfold set_light
    rw [if_neg he]
    have hf := foldl_putLights_frame
      (fun st c => gridLights st c.1 c.2 + (if onv then 1 else -1))
    refine ⟨(hf _ _).1, (hf _ _).2.1, (hf _ _).2.2.2.2.1, (hf _ _).2.2.2.2.2.1, ?_, ?_⟩
    · rw [(hf _ _).2.2.2.1]
      simp [putFlags]
    · rw [(hf _ _).2.2.2.2.2.2]
      simp [putFlags]

theorem gridFlags_set_light {s : game_state} {x y : Nat} {onv : Bool} (a b : Nat) :
    gridFlags (set_light s x y onv) a b =
      if onv = (gridFlags s x y).light then gridFlags s a b
      else
        (if y * s.w + x = b * s.w + a ∧ y * s.w + x < s.flags.length then
          { gridFlags s x y with light := onv }
        else gridFlags s a b) := by
  by_cases he : onv = (gridFlags s x y).light
  · rw [set_light_of_eq he, if_pos he]
  · rw [if_neg he]
    have hkey : gridFlags (set_light s x y onv) a b =
        gridFlags (putFlags s x y { gridFlags s x y with light := onv }) a b := by
      unfold gridFlags
      rw [(set_light_fields s x y onv).1, set_light_flags he]
      rfl
    rw [hkey, gridFlags_putFlags]

/-- The `LIGHT`-flag count after `set_light`, as integers (`set_light`
links `nlights` and the count when the cell index is in range). -/
theorem set_light_count {s : game_state} {x y : Nat} {onv : Bool}
    (hidx : y * s.w + x < s.flags.length)
    (hne : ¬(onv = (gridFlags s x y).light)) :
    (lightFlagCount (set_light s x y onv) : Int) =
      (lightFlagCount s : Int) + (if onv then 1 else -1) := by
  unfold lightFlagCount
  rw [set_light_flags hne, List.countP_set _ _ _ _ hidx]
  have hget : s.flags[y * s.w + x] = gridFlags s x y := by
    unfold gridFlags
    rw [List.getElem?_eq_getElem hidx]
    rfl
  rw [hget]
  have hle := List.boole_getElem_le_countP (fun f => f.light) s.flags (y * s.w + x) hidx
  rw [hget] at hle
  cases onv with
  | false =>
    have hl : (gridFlags s x y).light = true := by
      cases hq : (gridFlags s x y).light
      · exact absurd hq.symm hne
      · rfl
    have h1le : 1 ≤ s.flags.countP (fun f => f.light) := by
      simpa [hl] using hle
    simp only [hl]
    norm_num
    omega
  | true =>
    have hl : (gridFlags s x y).light = false := by
      cases hq : (gridFlags s x y).light
      · rfl
      · exact absurd hq.symm hne
    simp only [hl]
    norm_num

/-- `set_light` on an in-range cell preserves the basic state invariant. -/
theorem stateInv_set_light {s : game_state} {x y : Nat} {onv : Bool}
    (h : stateInv s) (hx : x < s.w) (hy : y < s.h) :
    stateInv (set_light s x y onv) := by
  obtain ⟨h1, h2, h3⟩ := h
  have hw := (set_light_fields s x y onv).1
  have hh := (set_light_fields s x y onv).2.1
  have hfl := (set_light_fields s x y onv).2.2.2.2.1
  have hll := (set_light_fields s x y onv).2.2.2.2.2
  refine ⟨by rw [hfl, h1, hw, hh], by rw [hll, h2, hw, hh], ?_⟩
  by_cases he : onv = (gridFlags s x y).light
  · rw [set_light_of_eq he]
    exact h3
  · have hidx : y * s.w + x < s.flags.length := by
      rw [h1]
      exact gridIdx_lt hx hy
    rw [set_light_nlights he, set_light_count hidx he, h3]

/-! ## Frame lemmas for the move executor -/

theorem gridFlags_eq_of_idx {s : game_state} {x y a b : Nat}
    (h : y * s.w + x = b * s.w + a) : gridFlags s x y = gridFlags s a b := by
  unfold gridFlags
  rw [h]

/-- `putFlags` with a flag word whose `LIGHT` bit matches the old one
preserves the basic state invariant. -/
theorem stateInv_putFlags {s : game_state} {x y : Nat} {F : CellFlags}
    (h : stateInv s) (hx : x < s.w) (hy : y < s.h)
    (hlight : F.light = (gridFlags s x y).light) : stateInv (putFlags s x y F) := by
  obtain ⟨h1, h2, h3⟩ := h
  have hidx : y * s.w + x < s.flags.length := by
    rw [h1]
    exact gridIdx_lt hx hy
  have hget : s.flags[y * s.w + x] = gridFlags s x y := by
    unfold gridFlags
    rw [List.getElem?_eq_getElem hidx]
    rfl
  refine ⟨by simpa [putFlags] using h1, by simpa [putFlags] using h2, ?_⟩
  have hcount : lightFlagCount (putFlags s x y F) = lightFlagCount s := by
    unfold lightFlagCount putFlags
    simp only
    rw [List.countP_set _ _ _ _ hidx, hget]
    have hle := List.boole_getElem_le_countP (fun f => f.light) s.flags (y * s.w + x) hidx
    rw [hget] at hle
    simp only [hlight]
    omega
  rw [hcount]
  exact h3

theorem blackEq_putFlags {s : game_state} {x y : Nat} {F : CellFlags}
    (hb : F.black = (gridFlags s x y).black) (a b : Nat) :
    (gridFlags (putFlags s x y F) a b).black = (gridFlags s a b).black := by
  rw [gridFlags_putFlags]
  split
  · next hc =>
    rw [hb, gridFlags_eq_of_idx hc.1]
  · rfl

theorem blackEq_set_light {s : game_state} {x y : Nat} {onv : Bool} (a b : Nat) :
    (gridFlags (set_light s x y onv) a b).black = (gridFlags s a b).black := by
  rw [gridFlags_set_light]
  split
  · rfl
  · split
    · next hc =>
      have : ({ gridFlags s x y with light := onv } : CellFlags).black =
          (gridFlags s x y).black := rfl
      rw [this, gridFlags_eq_of_idx hc.1]
    · rfl

/-- Executions of the command loop decompose into `S`, `L` and `I` steps:
any reflexive, transitive relation that holds across each single command
holds from the initial to the final state of a successful `exec_cmds`. -/
theorem exec_cmds_steps (P : game_state → game_state → Prop)
    (hrefl : ∀ s, P s s)
    (htrans : ∀ a b c, P a b → P b c → P a c)
    (hS : ∀ s, P s { s with used_solve := true })
    (hL : ∀ (s : game_state) (x y : Nat), x < s.w → y < s.h →
      (gridFlags s x y).black = false →
      P s (set_light (putFlags s x y { gridFlags s x y with impossible := false }) x y
        (!(gridFlags s x y).light)))
    (hI : ∀ (s : game_state) (x y : Nat), x < s.w → y < s.h →
      (gridFlags s x y).black = false →
      P s (putFlags (set_light s x y false) x y
        { gridFlags (set_light s x y false) x y with
            impossible := !(gridFlags (set_light s x y false) x y).impossible })) :
    ∀ (fuel : Nat) (s : game_state) (cs : List Char) (t : game_state),
      exec_cmds fuel s cs = some t → P s t := by
  intro fuel
  induction fuel with
  | zero =>
    intro s cs t h
    cases cs with
    | nil =>
      simp only [exec_cmds, Option.some.injEq] at h
      exact h ▸ hrefl s
    | cons c cs2 => simp [exec_cmds] at h
  | succ fuel ih =>
    intro s cs t h
    cases cs with
    | nil =>
      simp only [exec_cmds, Option.some.injEq] at h
      exact h ▸ hrefl s
    | cons c cs2 =>
      rw [exec_cmds.eq_def] at h
      simp only [] at h
      by_cases hSc : c = 'S'
      · rw [if_pos hSc] at h
        cases cs2 with
        | nil =>
          simp only [Option.some.injEq] at h
          exact h ▸ hS s
        | cons c2 r =>
          simp only [] at h
          by_cases hsemi : c2 = ';'
          · rw [if_pos hsemi] at h
            exact htrans _ _ _ (hS s) (ih _ _ _ h)
          · rw [if_neg hsemi] at h
            simp at h
      · rw [if_neg hSc] at h
        by_cases hLI : c = 'L' ∨ c = 'I'
        · rw [if_pos hLI] at h
          rcases hp : parsePair cs2 with _ | ⟨xi, yi, rest⟩ <;> rw [hp] at h
          · simp at h
          · simp only [] at h
            by_cases hr : xi < 0 ∨ yi < 0 ∨ (s.w : Int) ≤ xi ∨ (s.h : Int) ≤ yi
            · rw [if_pos hr] at h
              simp at h
            · rw [if_neg hr] at h
              push_neg at hr
              obtain ⟨hx0, hy0, hxw, hyh⟩ := hr
              by_cases hbl : (gridFlags s xi.toNat yi.toNat).black
              · rw [if_pos hbl] at h
                simp at h
              · rw [if_neg hbl] at h
                have hxw2 : xi.toNat < s.w := by omega
                have hyh2 : yi.toNat < s.h := by omega
                have hblf : (gridFlags s xi.toNat yi.toNat).black = false := by
                  cases hq : (gridFlags s xi.toNat yi.toNat).black
                  · rfl
                  · exact absurd hq hbl
                have hstep : P s (if c = 'L' then
                    set_light (putFlags s xi.toNat yi.toNat
                      { gridFlags s xi.toNat yi.toNat with impossible := false })
                      xi.toNat yi.toNat (!(gridFlags s xi.toNat yi.toNat).light)
                  else
                    putFlags (set_light s xi.toNat yi.toNat false) xi.toNat yi.toNat
                      { gridFlags (set_light s xi.toNat yi.toNat false) xi.toNat yi.toNat with
                          impossible :=
                            !(gridFlags (set_light s xi.toNat yi.toNat false)
                              xi.toNat yi.toNat).impossible }) := by
                  by_cases hc : c = 'L'
                  · rw [if_pos hc]
                    exact hL s xi.toNat yi.toNat hxw2 hyh2 hblf
                  · rw [if_neg hc]
                    exact hI s xi.toNat yi.toNat hxw2 hyh2 hblf
                cases rest with
                | nil =>
                  simp only [Option.some.injEq] at h
                  exact h ▸ hstep
                | cons c2 r =>
                  simp only [] at h
                  by_cases hsemi : c2 = ';'
                  · rw [if_pos hsemi] at h
                    exact htrans _ _ _ hstep (ih _ _ _ h)
                  · rw [if_neg hsemi] at h
                    simp at h
        · rw [if_neg hLI] at h
          simp at h

/-- Each executed command leaves the `completed` flag unchanged (only the
final `grid_correct` check of `execute_move` can set it). -/
theorem exec_cmds_preserves_completed (fuel : Nat) (s : game_state) (cs : List Char)
    (t : game_state) (h : exec_cmds fuel s cs = some t) : t.completed = s.completed := by
  refine exec_cmds_steps (fun a b => b.completed = a.completed) (fun _ => rfl)
    (fun a b c h1 h2 => h2.trans h1) (fun s => rfl) ?_ ?_ fuel s cs t h
  · intro s x y _ _ _
    exact (set_light_fields _ _ _ _).2.2.1
  · intro s x y _ _ _
    exact (set_light_fields s x y false).2.2.1

/-- Each executed command preserves the basic state invariant. -/
theorem exec_cmds_stateInv (fuel : Nat) (s : game_state) (cs : List Char)
    (t : game_state) (h : exec_cmds fuel s cs = some t) (hs : stateInv s) : stateInv t := by
  refine exec_cmds_steps (fun a b => stateInv a → stateInv b) (fun _ h => h)
    (fun a b c h1 h2 ha => h2 (h1 ha)) (fun s h => h) ?_ ?_ fuel s cs t h hs
  · intro s x y hx hy _ h
    exact stateInv_set_light (stateInv_putFlags h hx hy rfl) hx hy
  · intro s x y hx hy _ h
    have hw := (set_light_fields s x y false).1
    have hh := (set_light_fields s x y false).2.1
    exact stateInv_putFlags (stateInv_set_light h hx hy) (by omega) (by omega) rfl

/-- Each executed command preserves the grid dimensions and the black
plane (no command can touch a black cell or blacken a white one). -/
theorem exec_cmds_preserves_black (fuel : Nat) (s : game_state) (cs : List Char)
    (t : game_state) (h : exec_cmds fuel s cs = some t) :
    t.w = s.w ∧ t.h = s.h ∧
      ∀ a b, (gridFlags t a b).black = (gridFlags s a b).black := by
  refine exec_cmds_steps
    (fun a b => b.w = a.w ∧ b.h = a.h ∧
      ∀ x y, (gridFlags b x y).black = (gridFlags a x y).black)
    (fun _ => ⟨rfl, rfl, fun _ _ => rfl⟩)
    (fun a b c h1 h2 =>
      ⟨h2.1.trans h1.1, h2.2.1.trans h1.2.1,
        fun x y => (h2.2.2 x y).trans (h1.2.2 x y)⟩)
    (fun s => ⟨rfl, rfl, fun _ _ => rfl⟩) ?_ ?_ fuel s cs t h
  · intro s x y _ _ _
    refine ⟨(set_light_fields _ _ _ _).1, (set_light_fields _ _ _ _).2.1, ?_⟩
    intro a b
    rw [blackEq_set_light a b]
    exact @blackEq_putFlags s x y { gridFlags s x y with impossible := false } rfl a b
  · intro s x y _ _ _
    refine ⟨(set_light_fields s x y false).1, (set_light_fields s x y false).2.1, ?_⟩
    intro a b
    rw [@blackEq_putFlags (set_light s x y false) x y
      { gridFlags (set_light s x y false) x y with
          impossible := !(gridFlags (set_light s x y false) x y).impossible } rfl a b,
      blackEq_set_light a b]

/-! ## Fresh states satisfy the invariant -/

theorem gridFlags_light_false {s : game_state}
    (h : ∀ f ∈ s.flags, f.light = false) (x y : Nat) :
    (gridFlags s x y).light = false := by
  unfold gridFlags
  rcases hg : s.flags[y * s.w + x]? with _ | v
  · rfl
  · exact h v (List.getElem?_mem hg)

/-- One descriptor cell write keeps the planes' sizes, `nlights = 0` and
the absence of lights. -/
theorem new_game_cell_inv {s : game_state} {x y : Nat} {c : Char}
    (h1 : s.flags.length = s.w * s.h) (h2 : s.lights.length = s.w * s.h)
    (h3 : s.nlights = 0) (h4 : ∀ f ∈ s.flags, f.light = false) :
    (new_game_cell s x y c).flags.length =
        (new_game_cell s x y c).w * (new_game_cell s x y c).h ∧
      (new_game_cell s x y c).lights.length =
        (new_game_cell s x y c).w * (new_game_cell s x y c).h ∧
      (new_game_cell s x y c).nlights = 0 ∧
      ∀ f ∈ (new_game_cell s x y c).flags, f.light = false := by
  unfold new_game_cell
  split
  · refine ⟨by simpa [putLights, putFlags] using h1,
      by simpa [putLights, putFlags] using h2, h3, ?_⟩
    intro f hf
    simp only [putLights, putFlags] at hf
    rcases List.mem_or_eq_of_mem_set hf with hm | he
    · exact h4 f hm
    · subst he
      exact gridFlags_light_false h4 _ _
  · split
    · refine ⟨by simpa [putFlags] using h1, by simpa [putFlags] using h2, h3, ?_⟩
      intro f hf
      simp only [putFlags] at hf
      rcases List.mem_or_eq_of_mem_set hf with hm | he
      · exact h4 f hm
      · subst he
        exact gridFlags_light_false h4 _ _
    · exact ⟨h1, h2, h3, h4⟩

/-- The no-lights invariant holds through the `new_game` descriptor walk. -/
theorem new_game_fold_inv (l : List (Nat × Nat)) :
    ∀ (acc : game_state × List Char × Nat),
      acc.1.flags.length = acc.1.w * acc.1.h →
      acc.1.lights.length = acc.1.w * acc.1.h →
      acc.1.nlights = 0 →
      (∀ f ∈ acc.1.flags, f.light = false) →
      ((l.foldl new_game_step acc).1.flags.length =
          (l.foldl new_game_step acc).1.w * (l.foldl new_game_step acc).1.h ∧
        (l.foldl new_game_step acc).1.lights.length =
          (l.foldl new_game_step acc).1.w * (l.foldl new_game_step acc).1.h ∧
        (l.foldl new_game_step acc).1.nlights = 0 ∧
        ∀ f ∈ (l.foldl new_game_step acc).1.flags, f.light = false) := by
  induction l with
  | nil => intro acc h1 h2 h3 h4; exact ⟨h1, h2, h3, h4⟩
  | cons cell tl ih =>
    intro acc h1 h2 h3 h4
    obtain ⟨s, d, run⟩ := acc
    simp only [List.foldl_cons]
    by_cases hrun : run = 0
    · subst hrun
      cases d with
      | nil =>
        have hstep : new_game_step (s, ([] : List Char), 0) cell = (s, [], 0) := rfl
        rw [hstep]
        exact ih (s, [], 0) h1 h2 h3 h4
      | cons c d2 =>
        by_cases hletter : 'a' ≤ c ∧ c ≤ 'z'
        · have hstep : new_game_step (s, c :: d2, 0) cell = (s, d2, c.toNat - 97) := by
            simp [new_game_step, hletter]
          rw [hstep]
          exact ih (s, d2, c.toNat - 97) h1 h2 h3 h4
        · have hstep : new_game_step (s, c :: d2, 0) cell =
              (new_game_cell s cell.1 cell.2 c, d2, 0) := by
            simp [new_game_step, hletter]
          rw [hstep]
          have hc := new_game_cell_inv (x := cell.1) (y := cell.2) (c := c) h1 h2 h3 h4
          exact ih (new_game_cell s cell.1 cell.2 c, d2, 0) hc.1 hc.2.1 hc.2.2.1 hc.2.2.2
    · have hstep : new_game_step (s, d, run) cell = (s, d, run - 1) := by
        simp [new_game_step, hrun]
      rw [hstep]
      exact ih (s, d, run - 1) h1 h2 h3 h4

/-- A fresh state decoded from any descriptor satisfies the invariant:
no lights, `nlights = 0`, planes of size `w * h`. -/
theorem stateInv_new_game (p : game_params) (d : List Char) :
    stateInv (new_game p d) ∧ (new_game p d).nlights = 0 ∧
      lightFlagCount (new_game p d) = 0 := by
  have h0 := new_game_fold_inv (cellListRM (new_state p)) (new_state p, d, 0)
    (by simp [new_state]) (by simp [new_state]) rfl
    (by
      intro f hf
      have he := List.eq_of_mem_replicate hf
      subst he
      rfl)
  obtain ⟨h1, h2, h3, h4⟩ := h0
  have hcount : lightFlagCount (new_game p d) = 0 := by
    unfold lightFlagCount
    rw [List.countP_eq_zero]
    intro f hf
    have := h4 f (by exact hf)
    simp [this]
  refine ⟨⟨h1, h2, ?_⟩, h3, hcount⟩
  have h3x : (new_game p d).nlights = 0 := h3
  rw [h3x, hcount]
  rfl

/-! ## Visibility: characterizing the four scan walks -/

theorem scanLeft_le (t : game_state) (y : Nat) : ∀ x, scanLeft t y x ≤ x := by
  intro x
  induction x with
  | zero => exact Nat.le_refl _
  | succ x ih =>
    rw [scanLeft]
    split
    · exact Nat.le_refl _
    · omega

theorem scanLeft_clear (t : game_state) (y : Nat) :
    ∀ x u, scanLeft t y x ≤ u → u < x → (gridFlags t u y).black = false := by
  intro x
  induction x with
  | zero => intro u _ hu; omega
  | succ x ih =>
    intro u h1 h2
    rw [scanLeft] at h1
    by_cases hbl : (gridFlags t x y).black
    · rw [if_pos hbl] at h1
      omega
    · rw [if_neg hbl] at h1
      by_cases hux : u = x
      · subst hux
        cases hq : (gridFlags t u y).black
        · rfl
        · exact absurd hq hbl
      · exact ih u h1 (by omega)

theorem scanLeft_min (t : game_state) (y : Nat) :
    ∀ x a, a ≤ x → (∀ u, a ≤ u → u < x → (gridFlags t u y).black = false) →
      scanLeft t y x ≤ a := by
  intro x
  induction x with
  | zero =>
    intro a h _
    rw [scanLeft]
    omega
  | succ x ih =>
    intro a ha hcl
    rw [scanLeft]
    by_cases hax : a = x + 1
    · rw [hax]
      split
      · exact Nat.le_refl _
      · exact Nat.le_trans (scanLeft_le t y x) (by omega)
    · have hax2 : a ≤ x := by omega
      rw [if_neg (by rw [hcl x hax2 (by omega)]; simp)]
      exact ih a hax2 (fun u hu1 hu2 => hcl u hu1 (by omega))

theorem scanRight_ge (t : game_state) (y : Nat) :
    ∀ fuel x, x ≤ scanRight t y x fuel := by
  intro fuel
  induction fuel with
  | zero => intro x; exact Nat.le_refl _
  | succ fuel ih =>
    intro x
    rw [scanRight]
    split
    · exact Nat.le_trans (by omega) (ih (x + 1))
    · exact Nat.le_refl _

theorem scanRight_lt (t : game_state) (y : Nat) :
    ∀ fuel x, x < t.w → scanRight t y x fuel < t.w := by
  intro fuel
  induction fuel with
  | zero => intro x h; exact h
  | succ fuel ih =>
    intro x h
    rw [scanRight]
    split
    · next hc => exact ih (x + 1) hc.1
    · exact h

theorem scanRight_clear (t : game_state) (y : Nat) :
    ∀ fuel x u, x < u → u ≤ scanRight t y x fuel →
      u < t.w ∧ (gridFlags t u y).black = false := by
  intro fuel
  induction fuel with
  | zero =>
    intro x u h1 h2
    rw [scanRight] at h2
    omega
  | succ fuel ih =>
    intro x u h1 h2
    rw [scanRight] at h2
    by_cases hc : x + 1 < t.w ∧ (gridFlags t (x + 1) y).black = false
    · rw [if_pos hc] at h2
      by_cases hux : u = x + 1
      · subst hux
        exact hc
      · exact ih (x + 1) u (by omega) h2
    · rw [if_neg hc] at h2
      omega

theorem scanRight_max (t : game_state) (y : Nat) :
    ∀ fuel x a, x ≤ a → a < t.w → a ≤ x + fuel →
      (∀ u, x < u → u ≤ a → (gridFlags t u y).black = false) →
      a ≤ scanRight t y x fuel := by
  intro fuel
  induction fuel with
  | zero =>
    intro x a h1 _ h3 _
    rw [scanRight]
    omega
  | succ fuel ih =>
    intro x a h1 h2 h3 hcl
    rw [scanRight]
    by_cases hax : a = x
    · subst hax
      split
      · exact Nat.le_trans (by omega) (scanRight_ge t y fuel (a + 1))
      · exact Nat.le_refl _
    · rw [if_pos ⟨by omega, hcl (x + 1) (by omega) (by omega)⟩]
      exact ih (x + 1) a (by omega) h2 (by omega)
        (fun u hu1 hu2 => hcl u (by omega) hu2)

theorem scanUp_le (t : game_state) (x : Nat) : ∀ y, scanUp t x y ≤ y := by
  intro y
  induction y with
  | zero => exact Nat.le_refl _
  | succ y ih =>
    rw [scanUp]
    split
    · exact Nat.le_refl _
    · omega

theorem scanUp_clear (t : game_state) (x : Nat) :
    ∀ y u, scanUp t x y ≤ u → u < y → (gridFlags t x u).black = false := by
  intro y
  induction y with
  | zero => intro u _ hu; omega
  | succ y ih =>
    intro u h1 h2
    rw [scanUp] at h1
    by_cases hbl : (gridFlags t x y).black
    · rw [if_pos hbl] at h1
      omega
    · rw [if_neg hbl] at h1
      by_cases huy : u = y
      · subst huy
        cases hq : (gridFlags t x u).black
        · rfl
        · exact absurd hq hbl
      · exact ih u h1 (by omega)

theorem scanUp_min (t : game_state) (x : Nat) :
    ∀ y a, a ≤ y → (∀ u, a ≤ u → u < y → (gridFlags t x u).black = false) →
      scanUp t x y ≤ a := by
  intro y
  induction y with
  | zero =>
    intro a h _
    rw [scanUp]
    omega
  | succ y ih =>
    intro a ha hcl
    rw [scanUp]
    by_cases hay : a = y + 1
    · rw [hay]
      split
      · exact Nat.le_refl _
      · exact Nat.le_trans (scanUp_le t x y) (by omega)
    · have hay2 : a ≤ y := by omega
      rw [if_neg (by rw [hcl y hay2 (by omega)]; simp)]
      exact ih a hay2 (fun u hu1 hu2 => hcl u hu1 (by omega))

theorem scanDown_ge (t : game_state) (x : Nat) :
    ∀ fuel y, y ≤ scanDown t x y fuel := by
  intro fuel
  induction fuel with
  | zero => intro y; exact Nat.le_refl _
  | succ fuel ih =>
    intro y
    rw [scanDown]
    split
    · exact Nat.le_trans (by omega) (ih (y + 1))
    · exact Nat.le_refl _

theorem scanDown_lt (t : game_state) (x : Nat) :
    ∀ fuel y, y < t.h → scanDown t x y fuel < t.h := by
  intro fuel
  induction fuel with
  | zero => intro y h; exact h
  | succ fuel ih =>
    intro y h
    rw [scanDown]
    split
    · next hc => exact ih (y + 1) hc.1
    · exact h

theorem scanDown_clear (t : game_state) (x : Nat) :
    ∀ fuel y u, y < u → u ≤ scanDown t x y fuel →
      u < t.h ∧ (gridFlags t x u).black = false := by
  intro fuel
  induction fuel with
  | zero =>
    intro y u h1 h2
    rw [scanDown] at h2
    omega
  | succ fuel ih =>
    intro y u h1 h2
    rw [scanDown] at h2
    by_cases hc : y + 1 < t.h ∧ (gridFlags t x (y + 1)).black = false
    · rw [if_pos hc] at h2
      by_cases huy : u = y + 1
      · subst huy
        exact hc
      · exact ih (y + 1) u (by omega) h2
    · rw [if_neg hc] at h2
      omega

theorem scanDown_max (t : game_state) (x : Nat) :
    ∀ fuel y a, y ≤ a → a < t.h → a ≤ y + fuel →
      (∀ u, y < u → u ≤ a → (gridFlags t x u).black = false) →
      a ≤ scanDown t x y fuel := by
  intro fuel
  induction fuel with
  | zero =>
    intro y a h1 _ h3 _
    rw [scanDown]
    omega
  | succ fuel ih =>
    intro y a h1 h2 h3 hcl
    rw [scanDown]
    by_cases hay : a = y
    · subst hay
      split
      · exact Nat.le_trans (by omega) (scanDown_ge t x fuel (a + 1))
      · exact Nat.le_refl _
    · rw [if_pos ⟨by omega, hcl (y + 1) (by omega) (by omega)⟩]
      exact ih (y + 1) a (by omega) h2 (by omega)
        (fun u hu1 hu2 => hcl u (by omega) hu2)

/-- The cells `FOREACHLIT` visits (origin included) are exactly the cells
the declarative `sees` relation connects to the origin. -/
theorem foreachLit_mem (t : game_state) {x y : Nat} (hx : x < t.w) (hy : y < t.h)
    (hb : (gridFlags t x y).black = false) (a b : Nat) :
    ((a, b) ∈ foreachLit (list_lights t x y true)) ↔ sees t x y a b := by
  have hminx := scanLeft_le t y x
  have hmaxx := scanRight_ge t y t.w x
  have hminy := scanUp_le t x y
  have hmaxy := scanDown_ge t x t.h y
  unfold foreachLit list_lights sees rowClear colClear
  simp only [List.mem_append, List.mem_map, List.mem_filter, List.mem_range'_1,
    decide_eq_true_eq, Bool.true_or, and_true, Prod.mk.injEq]
  constructor
  · rintro (⟨lx, ⟨⟨hge, hlt⟩, hneq⟩, heq1, heq2⟩ | ⟨ly, ⟨hge, hlt⟩, heq1, heq2⟩)
    · subst heq2
      rw [heq1] at hge hlt hneq
      left
      have hle : a ≤ scanRight t y x t.w := by omega
      refine ⟨rfl, ?_, ?_⟩
      · by_cases hax : a ≤ x
        · omega
        · exact (scanRight_clear t y t.w x a (by omega) hle).1
      · intro u hu1 hu2
        by_cases hax : a ≤ x
        · rw [min_eq_left hax] at hu1
          rw [max_eq_right hax] at hu2
          by_cases hux : u = x
          · rw [hux]
            exact hb
          · exact scanLeft_clear t y x u (by omega) (by omega)
        · rw [min_eq_right (by omega)] at hu1
          rw [max_eq_left (by omega)] at hu2
          by_cases hux : u = x
          · rw [hux]
            exact hb
          · exact (scanRight_clear t y t.w x u (by omega) (by omega)).2
    · subst heq1
      rw [heq2] at hge hlt
      right
      have hle : b ≤ scanDown t x y t.h := by omega
      refine ⟨rfl, ?_, ?_⟩
      · by_cases hby : b ≤ y
        · omega
        · exact (scanDown_clear t x t.h y b (by omega) hle).1
      · intro u hu1 hu2
        by_cases hby : b ≤ y
        · rw [min_eq_left hby] at hu1
          rw [max_eq_right hby] at hu2
          by_cases huy : u = y
          · rw [huy]
            exact hb
          · exact scanUp_clear t x y u (by omega) (by omega)
        · rw [min_eq_right (by omega)] at hu1
          rw [max_eq_left (by omega)] at hu2
          by_cases huy : u = y
          · rw [huy]
            exact hb
          · exact (scanDown_clear t x t.h y u (by omega) (by omega)).2
  · rintro (⟨hby, haw, hclear⟩ | ⟨hax, hbh, hclear⟩)
    · have h2 := hby.symm
      subst h2
      by_cases hax : a = x
      · subst hax
        exact Or.inr ⟨y, ⟨hminy, by omega⟩, rfl, rfl⟩
      · refine Or.inl ⟨a, ⟨⟨?_, ?_⟩, hax⟩, rfl, rfl⟩
        · by_cases hax2 : a ≤ x
          · refine scanLeft_min t y x a hax2 ?_
            intro u hu1 hu2
            refine hclear u ?_ ?_
            · rw [min_eq_left hax2]
              exact hu1
            · rw [max_eq_right hax2]
              omega
          · omega
        · by_cases hax2 : a ≤ x
          · omega
          · have hamax : a ≤ scanRight t y x t.w := by
              refine scanRight_max t y t.w x a (by omega) haw (by omega) ?_
              intro u hu1 hu2
              refine hclear u ?_ ?_
              · rw [min_eq_right (by omega)]
                omega
              · rw [max_eq_left (by omega)]
                exact hu2
            omega
    · have h2 := hax.symm
      subst h2
      refine Or.inr ⟨b, ⟨?_, ?_⟩, rfl, rfl⟩
      · by_cases hby : b ≤ y
        · refine scanUp_min t x y b hby ?_
          intro u hu1 hu2
          refine hclear u ?_ ?_
          · rw [min_eq_left hby]
            exact hu1
          · rw [max_eq_right hby]
            omega
        · omega
      · by_cases hby : b ≤ y
        · omega
        · have hbmax : b ≤ scanDown t x y t.h := by
            refine scanDown_max t x t.h y b (by omega) hbh (by omega) ?_
            intro u hu1 hu2
            refine hclear u ?_ ?_
            · rw [min_eq_right (by omega)]
              omega
            · rw [max_eq_left (by omega)]
              exact hu2
          omega

/-- Every cell `FOREACHLIT` visits is in range. -/
theorem foreachLit_subset (t : game_state) {x y : Nat} (hx : x < t.w) (hy : y < t.h) :
    ∀ c ∈ foreachLit (list_lights t x y true), c.1 < t.w ∧ c.2 < t.h := by
  intro c hc
  have hmaxxlt := scanRight_lt t y t.w x hx
  have hmaxylt := scanDown_lt t x t.h y hy
  unfold foreachLit list_lights at hc
  simp only [List.mem_append, List.mem_map, List.mem_filter, List.mem_range'_1] at hc
  rcases hc with ⟨lx, ⟨⟨hge, hlt⟩, -⟩, heq⟩ | ⟨ly, ⟨hge, hlt⟩, heq⟩
  · subst heq
    have := scanLeft_le t y x
    exact ⟨by omega, hy⟩
  · subst heq
    have := scanUp_le t x y
    exact ⟨hx, by omega⟩

/-- `FOREACHLIT` visits each cell at most once. -/
theorem foreachLit_nodup (t : game_state) (x y : Nat) (o : Bool) :
    (foreachLit (list_lights t x y o)).Nodup := by
  unfold foreachLit
  refine List.Nodup.append ?_ ?_ ?_
  · refine List.Nodup.map ?_ (List.Nodup.filter _ (List.nodup_range' _ _))
    intro a1 a2 h
    simpa using h
  · refine List.Nodup.map ?_ (List.Nodup.filter _ (List.nodup_range' _ _))
    intro a1 a2 h
    simpa using h
  · intro c hc1 hc2
    simp only [List.mem_map, List.mem_filter, decide_eq_true_eq] at hc1 hc2
    obtain ⟨lx, ⟨-, hneq⟩, heq1⟩ := hc1
    obtain ⟨ly, -, heq2⟩ := hc2
    rw [← heq2] at heq1
    exact hneq (by simpa using congrArg Prod.fst heq1)

/-- In-range cell indices are injective. -/
theorem gridIdx_inj {w x1 y1 x2 y2 : Nat} (h1 : x1 < w) (h2 : x2 < w)
    (he : y1 * w + x1 = y2 * w + x2) : x1 = x2 ∧ y1 = y2 := by
  have hx : x1 = x2 := by
    calc x1 = (x1 + y1 * w) % w := by
          rw [Nat.add_mul_mod_self_right, Nat.mod_eq_of_lt h1]
    _ = (x2 + y2 * w) % w := by rw [show x1 + y1 * w = x2 + y2 * w by omega]
    _ = x2 := by rw [Nat.add_mul_mod_self_right, Nat.mod_eq_of_lt h2]
  refine ⟨hx, ?_⟩
  subst hx
  exact Nat.eq_of_mul_eq_mul_right (by omega) (Nat.add_right_cancel he)

/-- Folding a `± diff` update over a duplicate-free list of in-range cells
adds `diff` to exactly the listed cells' lit counts. -/
theorem foldl_putLights_add (diff : Int) :
    ∀ (l : List (Nat × Nat)) (t : game_state), l.Nodup →
      (∀ c ∈ l, c.1 < t.w ∧ c.2 < t.h) → t.lights.length = t.w * t.h →
      ∀ a b, a < t.w → b < t.h →
        gridLights (l.foldl
          (fun st c => putLights st c.1 c.2 (gridLights st c.1 c.2 + diff)) t) a b =
          gridLights t a b + (if (a, b) ∈ l then diff else 0) := by
  intro l
  induction l with
  | nil =>
    intro t _ _ _ a b _ _
    simp
  | cons c tl ih =>
    intro t hnd hin hlen a b ha hb2
    simp only [List.foldl_cons]
    have hf := putLights_fields t c.1 c.2 (gridLights t c.1 c.2 + diff)
    have hcin := hin c (by simp)
    have hidxc : c.2 * t.w + c.1 < t.lights.length := by
      rw [hlen]
      exact gridIdx_lt hcin.1 hcin.2
    have ihres := ih (putLights t c.1 c.2 (gridLights t c.1 c.2 + diff))
      (List.nodup_cons.mp hnd).2
      (fun d hd => by
        rw [hf.1, hf.2.1]
        exact hin d (by simp [hd]))
      (by rw [hf.2.2.2.2.2.2, hlen, hf.1, hf.2.1])
      a b (by rw [hf.1]; exact ha) (by rw [hf.2.1]; exact hb2)
    rw [ihres]
    have hgl : gridLights (putLights t c.1 c.2 (gridLights t c.1 c.2 + diff)) a b =
        if (a, b) = c then gridLights t a b + diff else gridLights t a b := by
      rw [gridLights_putLights]
      by_cases hc : (a, b) = c
      · rw [if_pos hc]
        have hcc : c.1 = a ∧ c.2 = b := by
          rw [← hc]
          exact ⟨rfl, rfl⟩
        rw [if_pos ⟨by rw [hcc.1, hcc.2], hidxc⟩]
        rw [hcc.1, hcc.2]
      · have hne : ¬(c.2 * t.w + c.1 = b * t.w + a ∧ c.2 * t.w + c.1 < t.lights.length) := by
          intro hq
          obtain ⟨e1, e2⟩ := gridIdx_inj hcin.1 ha hq.1
          apply hc
          rw [← e1, ← e2]
        rw [if_neg hc, if_neg hne]
    rw [hgl]
    by_cases hc : (a, b) = c
    · have hnotin : (a, b) ∉ tl := by
        rw [hc]
        exact (List.nodup_cons.mp hnd).1
      rw [if_pos hc, if_neg hnotin,
        if_pos (show (a, b) ∈ c :: tl by rw [hc]; exact List.mem_cons_self c tl)]
      ring
    · rw [if_neg hc]
      simp only [List.mem_cons, hc, false_or]

/-- `sees` only depends on the dimensions and the black plane. -/
theorem sees_congr {t u : game_state} (hw : t.w = u.w) (hh : t.h = u.h)
    (hbk : ∀ a b, (gridFlags t a b).black = (gridFlags u a b).black)
    (ox oy a b : Nat) : sees t ox oy a b ↔ sees u ox oy a b := by
  unfold sees rowClear colClear
  rw [hw, hh]
  simp only [hbk]

/-- The black plane of the intermediate state `s2` built inside
`set_light` (flag write plus `nlights` bump) agrees with the original. -/
theorem blackEq_putFlags_nlights {s : game_state} {x y : Nat} {F : CellFlags} {n : Int}
    (hbk : F.black = (gridFlags s x y).black) (a b : Nat) :
    (gridFlags { putFlags s x y F with nlights := n } a b).black =
      (gridFlags s a b).black :=
  blackEq_putFlags hbk a b

/-- Visibility from the intermediate state of `set_light` coincides with
visibility from the original state. -/
theorem sees_putFlags_nlights {s : game_state} {x y : Nat} {F : CellFlags} {n : Int}
    (hbk : F.black = (gridFlags s x y).black) (ox oy a b : Nat) :
    sees { putFlags s x y F with nlights := n } ox oy a b ↔ sees s ox oy a b := by
  refine sees_congr ?_ ?_ (fun a2 b2 => blackEq_putFlags_nlights hbk a2 b2) ox oy a b
  · rfl
  · rfl

/-- The `FOREACHLIT` update loop of `set_light` adds `diff` to the lit
count of exactly the cells the origin sees. -/
theorem foldl_lits_spec (t : game_state) {x y : Nat} (diff : Int)
    (hx : x < t.w) (hy : y < t.h) (hnb : (gridFlags t x y).black = false)
    (hll2 : t.lights.length = t.w * t.h) (a b : Nat) (ha : a < t.w) (hb2 : b < t.h) :
    (sees t x y a b →
      gridLights ((foreachLit (list_lights t x y true)).foldl
        (fun st c => putLights st c.1 c.2 (gridLights st c.1 c.2 + diff)) t) a b =
        gridLights t a b + diff) ∧
    (¬ sees t x y a b →
      gridLights ((foreachLit (list_lights t x y true)).foldl
        (fun st c => putLights st c.1 c.2 (gridLights st c.1 c.2 + diff)) t) a b =
        gridLights t a b) := by
  have hmem := foreachLit_mem t hx hy hnb a b
  have hkey := foldl_putLights_add diff (foreachLit (list_lights t x y true)) t
    (foreachLit_nodup t x y true) (foreachLit_subset t hx hy) hll2 a b ha hb2
  constructor
  · intro hsee
    rw [hkey, if_pos (hmem.mpr hsee)]
  · intro hnsee
    rw [hkey, if_neg (fun hm => hnsee (hmem.mp hm))]
    exact add_zero _

/-- The lit-count effect of a state-changing `set_light`. -/
theorem set_light_lights {s : game_state} {x y : Nat} {onv : Bool}
    (hne : ¬(onv = (gridFlags s x y).light))
    (hx : x < s.w) (hy : y < s.h) (hnb : (gridFlags s x y).black = false)
    (hfl : s.flags.length = s.w * s.h) (hll : s.lights.length = s.w * s.h)
    (a b : Nat) (ha : a < s.w) (hb2 : b < s.h) :
    (sees s x y a b →
      gridLights (set_light s x y onv) a b =
        gridLights s a b + (if onv then 1 else -1)) ∧
    (¬ sees s x y a b →
      gridLights (set_light s x y onv) a b = gridLights s a b) := by
  have hbk : ({ gridFlags s x y with light := onv } : CellFlags).black =
      (gridFlags s x y).black := rfl
  have hblack := Eq.trans
    (@blackEq_putFlags_nlights s x y { gridFlags s x y with light := onv }
      ((putFlags s x y { gridFlags s x y with light := onv }).nlights +
        (if onv then 1 else -1)) hbk x y) hnb
  have hseeiff := @sees_putFlags_nlights s x y { gridFlags s x y with light := onv }
    ((putFlags s x y { gridFlags s x y with light := onv }).nlights +
      (if onv then 1 else -1)) hbk x y a b
  have hcore := foldl_lits_spec
    { putFlags s x y { gridFlags s x y with light := onv } with
      nlights := (putFlags s x y { gridFlags s x y with light := onv }).nlights +
        (if onv then 1 else -1) }
    (if onv then (1 : Int) else -1) hx hy hblack hll a b ha hb2
  unfold set_light
  rw [if_neg hne]
  constructor
  · intro hsee
    exact hcore.1 (hseeiff.mpr hsee)
  · intro hnsee
    exact hcore.2 (fun hsee2 => hnsee (hseeiff.mp hsee2))

/-! ## The branching-cell scan of `solve_sub` -/

theorem mem_cellList {s : game_state} {a b : Nat} :
    (a, b) ∈ cellList s ↔ a < s.w ∧ b < s.h := by
  unfold cellList
  simp

/-- A cell where a light could still be placed and whose lit count is
nonnegative lights at least one unlit cell: itself. -/
theorem branch_score_pos {s : game_state} {cx cy : Nat}
    (hcx : cx < s.w) (hcy : cy < s.h)
    (hnn0 : 0 ≤ gridLights s cx cy)
    (hcpl : could_place_light (gridFlags s cx cy) (gridLights s cx cy) = true) :
    0 < branch_score s (cx, cy) := by
  unfold could_place_light at hcpl
  by_cases hbi : ((gridFlags s cx cy).black || (gridFlags s cx cy).impossible) = true
  · rw [if_pos hbi] at hcpl
    exact absurd hcpl (by simp)
  · rw [if_neg hbi] at hcpl
    simp only [Bool.or_eq_true, not_or, Bool.not_eq_true] at hbi
    have hnb : (gridFlags s cx cy).black = false := hbi.1
    simp only [Bool.not_eq_true', decide_eq_false_iff_not, not_lt] at hcpl
    have hlz : gridLights s cx cy = 0 := le_antisymm hcpl hnn0
    have hsee : sees s cx cy cx cy := by
      refine Or.inl ⟨rfl, hcx, ?_⟩
      intro u hu1 hu2
      simp only [min_self] at hu1
      simp only [max_self] at hu2
      have hu : u = cx := le_antisymm hu2 hu1
      rw [hu]
      exact hnb
    have hmem : (cx, cy) ∈ foreachLit (list_lights s cx cy true) :=
      (foreachLit_mem s hcx hcy hnb cx cy).mpr hsee
    have hfmem : (cx, cy) ∈ (foreachLit (list_lights s cx cy true)).filter
        (fun d => decide (gridLights s d.1 d.2 = 0)) := by
      rw [List.mem_filter]
      exact ⟨hmem, by simp [hlz]⟩
    have hbseq : branch_score s (cx, cy) =
        (((foreachLit (list_lights s cx cy true)).filter
          (fun d => decide (gridLights s d.1 d.2 = 0))).length : Int) := rfl
    rw [hbseq]
    exact_mod_cast List.length_pos_of_mem hfmem

/-- The accumulator scan of the branching-cell choice keeps a strictly
positive score and nonnegative coordinates once it has them. -/
theorem choose_best_good (s : game_state) :
    ∀ (l : List (Nat × Nat)) (acc : Int × Int × Int),
      0 < acc.1 ∧ 0 ≤ acc.2.1 ∧ 0 ≤ acc.2.2 →
      0 < (l.foldl
        (fun acc c =>
          if could_place_light (gridFlags s c.1 c.2) (gridLights s c.1 c.2) then
            if branch_score s c > acc.1 then (branch_score s c, (c.1 : Int), (c.2 : Int))
            else acc
          else acc) acc).1 ∧
      0 ≤ (l.foldl
        (fun acc c =>
          if could_place_light (gridFlags s c.1 c.2) (gridLights s c.1 c.2) then
            if branch_score s c > acc.1 then (branch_score s c, (c.1 : Int), (c.2 : Int))
            else acc
          else acc) acc).2.1 ∧
      0 ≤ (l.foldl
        (fun acc c =>
          if could_place_light (gridFlags s c.1 c.2) (gridLights s c.1 c.2) then
            if branch_score s c > acc.1 then (branch_score s c, (c.1 : Int), (c.2 : Int))
            else acc
          else acc) acc).2.2 := by
  intro l
  induction l with
  | nil =>
    intro acc h
    exact h
  | cons c tl ih =>
    intro acc h
    rw [List.foldl_cons]
    refine ih _ ?_
    split
    · split
      · next h2 => exact ⟨lt_trans h.1 h2, Int.natCast_nonneg _, Int.natCast_nonneg _⟩
      · next h2 => exact h
    · exact h

/-- The accumulator scan of the branching-cell choice either still holds
the sentinel `(0,-1,-1)` or a positive score with in-range coordinates. -/
theorem choose_best_inv (s : game_state) :
    ∀ (l : List (Nat × Nat)) (acc : Int × Int × Int),
      (acc = (0, -1, -1) ∨ (0 < acc.1 ∧ 0 ≤ acc.2.1 ∧ 0 ≤ acc.2.2)) →
      ((l.foldl
        (fun acc c =>
          if could_place_light (gridFlags s c.1 c.2) (gridLights s c.1 c.2) then
            if branch_score s c > acc.1 then (branch_score s c, (c.1 : Int), (c.2 : Int))
            else acc
          else acc) acc) = (0, -1, -1) ∨
       (0 < (l.foldl
        (fun acc c =>
          if could_place_light (gridFlags s c.1 c.2) (gridLights s c.1 c.2) then
            if branch_score s c > acc.1 then (branch_score s c, (c.1 : Int), (c.2 : Int))
            else acc
          else acc) acc).1 ∧
        0 ≤ (l.foldl
        (fun acc c =>
          if could_place_light (gridFlags s c.1 c.2) (gridLights s c.1 c.2) then
            if branch_score s c > acc.1 then (branch_score s c, (c.1 : Int), (c.2 : Int))
            else acc
          else acc) acc).2.1 ∧
        0 ≤ (l.foldl
        (fun acc c =>
          if could_place_light (gridFlags s c.1 c.2) (gridLights s c.1 c.2) then
            if branch_score s c > acc.1 then (branch_score s c, (c.1 : Int), (c.2 : Int))
            else acc
          else acc) acc).2.2)) := by
  intro l
  induction l with
  | nil =>
    intro acc h
    exact h
  | cons c tl ih =>
    intro acc h
    rw [List.foldl_cons]
    refine ih _ ?_
    rcases h with rfl | hgood
    · split
      · split
        · next h2 =>
          right
          refine ⟨by simpa using h2, Int.natCast_nonneg _, Int.natCast_nonneg _⟩
        · next h2 => left; rfl
      · left; rfl
    · split
      · split
        · next h2 =>
          right
          exact ⟨lt_trans hgood.1 h2, Int.natCast_nonneg _, Int.natCast_nonneg _⟩
        · next h2 => right; exact hgood
      · right; exact hgood

/-- One step of the branching-cell scan on a cell where a light could be
placed (with positive score) leaves a positive score and nonnegative
coordinates. -/
theorem choose_best_step_good (s : game_state) (acc : Int × Int × Int) (cx cy : Nat)
    (hcpl : could_place_light (gridFlags s cx cy) (gridLights s cx cy) = true)
    (hbs : 0 < branch_score s (cx, cy))
    (hinv : acc = (0, -1, -1) ∨ (0 < acc.1 ∧ 0 ≤ acc.2.1 ∧ 0 ≤ acc.2.2)) :
    0 < (if could_place_light (gridFlags s cx cy) (gridLights s cx cy) then
        if branch_score s (cx, cy) > acc.1 then
          (branch_score s (cx, cy), (cx : Int), (cy : Int))
        else acc
      else acc).1 ∧
    0 ≤ (if could_place_light (gridFlags s cx cy) (gridLights s cx cy) then
        if branch_score s (cx, cy) > acc.1 then
          (branch_score s (cx, cy), (cx : Int), (cy : Int))
        else acc
      else acc).2.1 ∧
    0 ≤ (if could_place_light (gridFlags s cx cy) (gridLights s cx cy) then
        if branch_score s (cx, cy) > acc.1 then
          (branch_score s (cx, cy), (cx : Int), (cy : Int))
        else acc
      else acc).2.2 := by
  rw [if_pos hcpl]
  by_cases h2 : branch_score s (cx, cy) > acc.1
  · rw [if_pos h2]
    exact ⟨hbs, Int.natCast_nonneg _, Int.natCast_nonneg _⟩
  · rw [if_neg h2]
    rcases hinv with rfl | hgood
    · exact absurd hbs h2
    · exact hgood

/-! ## Decimal numeral lemmas -/

theorem digitChar_isDigit {r : Nat} (h : r < 10) : (digitChar r).isDigit = true := by
  interval_cases r <;> decide

theorem digitChar_toNat {r : Nat} (h : r < 10) : (digitChar r).toNat = 48 + r := by
  interval_cases r <;> decide

theorem isDigit_ne_minus {c : Char} (h : c.isDigit = true) : ¬(c = '-') := by
  intro he
  subst he
  exact absurd h (by decide)

theorem isDigit_ne_plus {c : Char} (h : c.isDigit = true) : ¬(c = '+') := by
  intro he
  subst he
  exact absurd h (by decide)

theorem isDigit_not_cwhite {c : Char} (h : c.isDigit = true) : isCWhite c = false := by
  cases hw : isCWhite c
  · rfl
  · exfalso
    simp only [isCWhite, Bool.or_eq_true, decide_eq_true_eq] at hw
    rcases hw with ((((h1 | h1) | h1) | h1) | h1) | h1 <;>
      · subst h1
        exact absurd h (by decide)

theorem natDec_ne_nil (n : Nat) : natDec n ≠ [] := by
  rw [natDec]
  split
  · simp
  · simp

theorem natDec_digits (n : Nat) : ∀ c ∈ natDec n, c.isDigit = true := by
  induction n using Nat.strong_induction_on with
  | _ n ih =>
    rw [natDec]
    split
    · next h =>
      intro c hc
      simp only [List.mem_singleton] at hc
      subst hc
      exact digitChar_isDigit h
    · next h =>
      intro c hc
      rcases List.mem_append.mp hc with h1 | h1
      · exact ih (n / 10) (Nat.div_lt_self (by omega) (by omega)) c h1
      · simp only [List.mem_singleton] at h1
        subst h1
        exact digitChar_isDigit (Nat.mod_lt _ (by omega))

theorem readDigits_natDec (n : Nat) : ∀ (rest : List Char) (acc : Nat),
    readDigits (natDec n ++ rest) acc =
      readDigits rest (acc * 10 ^ (natDec n).length + n) := by
  induction n using Nat.strong_induction_on with
  | _ n ih =>
    intro rest acc
    rw [natDec]
    split
    · next h =>
      simp only [List.singleton_append, readDigits, digitChar_isDigit h, if_true,
        digitChar_toNat h, List.length_singleton, pow_one]
      congr 1
      omega
    · next h =>
      rw [List.append_assoc, ih (n / 10) (Nat.div_lt_self (by omega) (by omega)),
        List.singleton_append, readDigits]
      have hd : (digitChar (n % 10)).isDigit = true :=
        digitChar_isDigit (Nat.mod_lt _ (by omega))
      rw [if_pos hd]
      have hv : (digitChar (n % 10)).toNat - 48 = n % 10 := by
        rw [digitChar_toNat (Nat.mod_lt _ (by omega))]
        omega
      rw [hv]
      congr 1
      have hlen : (natDec (n / 10) ++ [digitChar (n % 10)]).length =
          (natDec (n / 10)).length + 1 := by simp
      rw [hlen, pow_succ]
      have := Nat.div_add_mod n 10
      ring_nf
      omega

theorem readDigits_stop {rest : List Char}
    (h : ∀ c, rest.head? = some c → c.isDigit = false) (acc : Nat) :
    readDigits rest acc = (acc, rest) := by
  cases rest with
  | nil => rfl
  | cons c tl =>
    rw [readDigits, if_neg]
    rw [h c rfl]
    simp

theorem dropWhile_append_all {p : Char → Bool} :
    ∀ (l rest : List Char), (∀ c ∈ l, p c = true) →
      (l ++ rest).dropWhile p = rest.dropWhile p := by
  intro l
  induction l with
  | nil => intro rest _; rfl
  | cons c tl ih =>
    intro rest h
    rw [List.cons_append, List.dropWhile_cons, if_pos (h c (by simp))]
    exact ih rest (fun d hd => h d (by simp [hd]))

theorem dropWhile_stop {p : Char → Bool} {rest : List Char}
    (h : ∀ c, rest.head? = some c → p c = false) :
    rest.dropWhile p = rest := by
  cases rest with
  | nil => rfl
  | cons c tl => rw [List.dropWhile_cons, h c rfl]; simp

theorem eatnum_natDec (n : Nat) (rest : List Char)
    (hr : ∀ c, rest.head? = some c → c.isDigit = false) :
    eatnum (natDec n ++ rest) = ((n : Int), rest) := by
  have hdig := natDec_digits n
  obtain ⟨c, tl, hnd⟩ : ∃ c tl, natDec n = c :: tl := by
    rcases h : natDec n with _ | ⟨c, tl⟩
    · exact absurd h (natDec_ne_nil n)
    · exact ⟨c, tl, rfl⟩
  have hcd : c.isDigit = true := hdig c (by rw [hnd]; simp)
  unfold eatnum atoi
  have hw : (natDec n ++ rest).dropWhile isCWhite = c :: (tl ++ rest) := by
    rw [hnd, List.cons_append, List.dropWhile_cons, isDigit_not_cwhite hcd]
    simp
  rw [hw]
  simp only [if_neg (isDigit_ne_minus hcd), if_neg (isDigit_ne_plus hcd)]
  have hrd : readDigits (c :: (tl ++ rest)) 0 = (n, rest) := by
    have : c :: (tl ++ rest) = natDec n ++ rest := by rw [hnd]; rfl
    rw [this, readDigits_natDec, readDigits_stop hr]
    simp
  rw [hrd]
  have hdd : (natDec n ++ rest).dropWhile Char.isDigit = rest := by
    rw [dropWhile_append_all _ _ hdig, dropWhile_stop hr]
  rw [hdd]

theorem intDec_of_nonneg {i : Int} (h : 0 ≤ i) : intDec i = natDec i.toNat := by
  unfold intDec
  rw [if_neg (by omega)]

/-! ## Descriptor validation lemmas -/

theorem char_le_toNat {c d : Char} (h : c ≤ d) : c.toNat ≤ d.toNat := h

theorem descCharCount_pos (c : Char) : 1 ≤ descCharCount c := by
  unfold descCharCount
  split
  · next h =>
    have h97 : (97 : Nat) ≤ c.toNat := char_le_toNat h.1
    omega
  · omega

theorem descCharCount_letter {c : Char} (h1 : 'a' ≤ c) (h2 : c ≤ 'z') :
    descCharCount c = (c.toNat - 97) + 1 := by
  unfold descCharCount
  rw [if_pos ⟨h1, h2⟩]
  have h97 : (97 : Nat) ≤ c.toNat := char_le_toNat h1
  omega

theorem descCharCount_nonletter {c : Char} (h : ¬('a' ≤ c ∧ c ≤ 'z')) :
    descCharCount c = 1 := by
  unfold descCharCount
  rw [if_neg h]

theorem digit_not_letter {c : Char} (h : ('0' ≤ c ∧ c ≤ '4') ∨ c = 'B') :
    ¬('a' ≤ c ∧ c ≤ 'z') := by
  rcases h with ⟨h1, h2⟩ | h1
  · intro hl
    have hv1 : c.toNat ≤ 52 := char_le_toNat h2
    have hv2 : (97 : Nat) ≤ c.toNat := char_le_toNat hl.1
    omega
  · subst h1
    decide

theorem vdGo_accept (target : Int) (d : List Char) : ∀ (i : Nat),
    ((vdGo target i d).1 = none ∧ (vdGo target i d).2.2 = [] ∧
      (((vdGo target i d).2.1 : Nat) : Int) ≤ target) ↔
    ((∀ c ∈ d, isLegalDescChar c = true) ∧ ((i : Int) + (descCount d : Int) = target)) := by
  induction d with
  | nil =>
    intro i
    rw [vdGo]
    by_cases hlt : (i : Int) < target
    · rw [if_pos hlt]
      simp [descCount]
      omega
    · rw [if_neg hlt]
      simp [descCount]
      omega
  | cons c d2 ih =>
    intro i
    rw [vdGo]
    by_cases hlt : (i : Int) < target
    · rw [if_pos hlt]
      by_cases h1 : ('0' ≤ c ∧ c ≤ '4') ∨ c = 'B'
      · rw [if_pos h1, ih (i + 1)]
        have hcc : descCharCount c = 1 := descCharCount_nonletter (digit_not_letter h1)
        have hlegal : isLegalDescChar c = true := by
          unfold isLegalDescChar
          rcases h1 with h1 | h1
          · simp [h1]
          · simp [h1]
        simp only [List.mem_cons, descCount, List.map_cons, List.sum_cons, hcc]
        constructor
        · rintro ⟨ha, hb⟩
          refine ⟨?_, ?_⟩
          · rintro x (rfl | hx)
            · exact hlegal
            · exact ha x hx
          · push_cast at hb ⊢
            omega
        · rintro ⟨ha, hb⟩
          refine ⟨fun x hx => ha x (Or.inr hx), ?_⟩
          push_cast at hb ⊢
          omega
      · rw [if_neg h1]
        by_cases h2 : 'a' ≤ c ∧ c ≤ 'z'
        · rw [if_pos h2, ih (i + (c.toNat - 97) + 1)]
          have hcc : descCharCount c = (c.toNat - 97) + 1 :=
            descCharCount_letter h2.1 h2.2
          have hlegal : isLegalDescChar c = true := by
            unfold isLegalDescChar
            simp [h2]
          simp only [List.mem_cons, descCount, List.map_cons, List.sum_cons, hcc]
          constructor
          · rintro ⟨ha, hb⟩
            refine ⟨?_, ?_⟩
            · rintro x (rfl | hx)
              · exact hlegal
              · exact ha x hx
            · push_cast at hb ⊢
              omega
          · rintro ⟨ha, hb⟩
            refine ⟨fun x hx => ha x (Or.inr hx), ?_⟩
            push_cast at hb ⊢
            omega
        · rw [if_neg h2]
          have hlegal : isLegalDescChar c = false := by
            unfold isLegalDescChar
            simp only [Bool.or_eq_false_iff, decide_eq_false_iff_not]
            exact ⟨⟨fun hb => h1 (Or.inl hb), fun hb => h1 (Or.inr hb)⟩, h2⟩
          simp only [List.mem_cons]
          constructor
          · rintro ⟨ha, -⟩
            exact absurd ha (by simp)
          · rintro ⟨ha, -⟩
            have := ha c (Or.inl rfl)
            rw [hlegal] at this
            exact absurd this (by simp)
    · rw [if_neg hlt]
      have hpos := descCharCount_pos c
      constructor
      · rintro ⟨-, hb, -⟩
        exact absurd hb (by simp)
      · rintro ⟨-, hb⟩
        have hc : descCount (c :: d2) = descCharCount c + descCount d2 := by
          simp [descCount]
        rw [hc] at hb
        push_cast at hb
        omega

/-! ## Claim theorems: descriptor validation -/

/-- C7: `validate_desc` accepts a descriptor exactly when it consists only
of the characters `0`..`4`, `B` and `a`..`z` and decodes to exactly
`width * height` cells; any other character, a premature end, and a
decoded cell count exceeding `width * height` are all rejected. -/
theorem validate_desc_none_iff (p : game_params) (d : List Char) :
    validate_desc p d = none ↔
      ((∀ c ∈ d, isLegalDescChar c = true) ∧ ((descCount d : Int) = p.w * p.h)) := by
  unfold validate_desc
  have hacc := vdGo_accept (p.w * p.h) d 0
  rcases hv : vdGo (p.w * p.h) 0 d with ⟨e, i, rest⟩
  rw [hv] at hacc
  simp only [Int.natCast_zero, zero_add] at hacc
  cases e with
  | some msg =>
    simp only
    constructor
    · intro h
      exact absurd h (by simp)
    · intro h
      rw [← hacc] at h
      exact absurd h.1 (by simp)
  | none =>
    simp only
    rw [← hacc]
    by_cases hrest : rest = []
    · by_cases hle : ((i : Nat) : Int) ≤ p.w * p.h
      · rw [if_neg (by push_neg; exact ⟨hrest, by omega⟩)]
        simp [hrest, hle]
      · rw [if_pos (by right; omega)]
        simp only
        constructor
        · intro h
          exact absurd h (by simp)
        · rintro ⟨-, -, h3⟩
          omega
    · rw [if_pos (by left; exact hrest)]
      constructor
      · intro h
        exact absurd h (by simp)
      · rintro ⟨-, h2, -⟩
        exact absurd h2 hrest

/-! ## Claim theorems: parameter codec -/

/-- C6: decoding the full encoding of a parameter record restores it field
for field, including the hard/recurse flag, whatever parameter record the
decoder starts from, provided the numeric fields are non-negative. -/
theorem decode_params_encode_full (q p : game_params)
    (hw : 0 ≤ p.w) (hh : 0 ≤ p.h) (hb : 0 ≤ p.blackpc) (hs : 0 ≤ p.symm) :
    decode_params q (encode_params p true) = p := by
  obtain ⟨pw, ph, pb, ps, pr⟩ := p
  simp only at hw hh hb hs
  have hx : ∀ c : Char, List.head? ['x'] = some c → c.isDigit = false := by
    intro c hc
    simp only [List.head?_cons, Option.some.injEq] at hc
    subst hc
    decide
  cases pr
  · have e4 := eatnum_natDec ps.toNat [] (by intro c hc; exact absurd hc (by simp))
    simp only [List.append_nil] at e4
    have e3 := eatnum_natDec pb.toNat ('s' :: natDec ps.toNat)
      (by intro c hc; simp only [List.head?_cons, Option.some.injEq] at hc; subst hc; decide)
    have e2 := eatnum_natDec ph.toNat ('b' :: (natDec pb.toNat ++ 's' :: natDec ps.toNat))
      (by intro c hc; simp only [List.head?_cons, Option.some.injEq] at hc; subst hc; decide)
    have e1 := eatnum_natDec pw.toNat
      ('x' :: (natDec ph.toNat ++ 'b' :: (natDec pb.toNat ++ 's' :: natDec ps.toNat)))
      (by intro c hc; simp only [List.head?_cons, Option.some.injEq] at hc; subst hc; decide)
    have he : encode_params ⟨pw, ph, pb, ps, false⟩ true =
        natDec pw.toNat ++
          ('x' :: (natDec ph.toNat ++ ('b' :: (natDec pb.toNat ++
            ('s' :: natDec ps.toNat))))) := by
      simp [encode_params, intDec_of_nonneg hw, intDec_of_nonneg hh,
        intDec_of_nonneg hb, intDec_of_nonneg hs]
    rw [he]
    simp [decode_params, e1, e2, e3, e4, Int.toNat_of_nonneg hw,
      Int.toNat_of_nonneg hh, Int.toNat_of_nonneg hb, Int.toNat_of_nonneg hs]
  · have e4 := eatnum_natDec ps.toNat ['r']
      (by intro c hc; simp only [List.head?_cons, Option.some.injEq] at hc; subst hc; decide)
    have e3 := eatnum_natDec pb.toNat ('s' :: (natDec ps.toNat ++ ['r']))
      (by intro c hc; simp only [List.head?_cons, Option.some.injEq] at hc; subst hc; decide)
    have e2 := eatnum_natDec ph.toNat
      ('b' :: (natDec pb.toNat ++ 's' :: (natDec ps.toNat ++ ['r'])))
      (by intro c hc; simp only [List.head?_cons, Option.some.injEq] at hc; subst hc; decide)
    have e1 := eatnum_natDec pw.toNat
      ('x' :: (natDec ph.toNat ++ 'b' :: (natDec pb.toNat ++ 's' :: (natDec ps.toNat ++ ['r']))))
      (by intro c hc; simp only [List.head?_cons, Option.some.injEq] at hc; subst hc; decide)
    have he : encode_params ⟨pw, ph, pb, ps, true⟩ true =
        natDec pw.toNat ++
          ('x' :: (natDec ph.toNat ++ ('b' :: (natDec pb.toNat ++
            ('s' :: (natDec ps.toNat ++ ['r'])))))) := by
      simp [encode_params, intDec_of_nonneg hw, intDec_of_nonneg hh,
        intDec_of_nonneg hb, intDec_of_nonneg hs]
    rw [he]
    simp [decode_params, e1, e2, e3, e4, Int.toNat_of_nonneg hw,
      Int.toNat_of_nonneg hh, Int.toNat_of_nonneg hb, Int.toNat_of_nonneg hs]

/-- C6 witness: the round trip evaluated at the 7×7 hard preset (starting
the decoder from a different record). -/
theorem decode_params_encode_full_witness :
    decode_params { w := 10, h := 10, blackpc := 20, symm := 2, recurse := false }
        (encode_params { w := 7, h := 7, blackpc := 20, symm := 4, recurse := true } true) =
      { w := 7, h := 7, blackpc := 20, symm := 4, recurse := true } :=
  decode_params_encode_full _ _ (by decide) (by decide) (by decide) (by decide)

/-- Successful moves preserve the basic state invariant. -/
theorem stateInv_execute_move (s : game_state) (m : List Char) (s2 : game_state)
    (h : execute_move s m = some s2) (hs : stateInv s) : stateInv s2 := by
  unfold execute_move at h
  by_cases hm : m = []
  · rw [if_pos hm] at h
    exact absurd h (by simp)
  · rw [if_neg hm] at h
    rcases he : exec_cmds m.length s m with _ | t <;> rw [he] at h
    · exact absurd h (by simp)
    · simp only [Option.some.injEq] at h
      subst h
      have ht := exec_cmds_stateInv _ _ _ _ he hs
      split
      · exact ht
      · exact ht

/-! ## Claim theorems: the nlights invariant and the completed latch -/

/-- C1 (amended): in every game state reachable from a fresh state by any
sequence of *executed moves*, the `nlights` field equals the number of
cells whose `LIGHT` flag is set.  (The claim as stated, which also admits
solver operations, is false: see `solver_breaks_nlights_invariant` — the
adopt-copy path of `solve_sub` restores the copy's planes without its
`nlights`.) -/
theorem reachable_nlights_eq_lightFlagCount (s : game_state) (h : Reachable s) :
    s.nlights = (lightFlagCount s : Int) := by
  have hinv : stateInv s := by
    induction h with
    | fresh p d => exact (stateInv_new_game p d).1
    | mv s1 s2 m _ hm ih => exact stateInv_execute_move s1 m s2 hm ih
  exact hinv.2.2

/-- C1 witness: the invariant evaluated on the 1×1 game after the
executed move `L0,0`. -/
theorem reachable_nlights_eq_lightFlagCount_witness :
    done1x1.nlights = (lightFlagCount done1x1 : Int) :=
  reachable_nlights_eq_lightFlagCount done1x1
    (Reachable.mv allWhite1x1 done1x1 ("L0,0".toList)
      (Reachable.fresh params1x1 ['a']) (by decide))

/-- C8: the `completed` flag is a one-way latch under moves — if a move
executes from a completed state, the resulting state is still completed
(the final `grid_correct` check can only set the flag, and no command
clears it). -/
theorem completed_latch (s : game_state) (m : List Char) (s2 : game_state)
    (hc : s.completed = true) (h : execute_move s m = some s2) : s2.completed = true := by
  unfold execute_move at h
  by_cases hm : m = []
  · rw [if_pos hm] at h
    exact absurd h (by simp)
  · rw [if_neg hm] at h
    rcases he : exec_cmds m.length s m with _ | t <;> rw [he] at h
    · exact absurd h (by simp)
    · simp only [Option.some.injEq] at h
      subst h
      have ht := exec_cmds_preserves_completed _ _ _ _ he
      split
      · rfl
      · rw [ht, hc]

/-- C8 witness: the completed 1×1 game stays completed across the
executed move `I0,0` (which removes its light again). -/
theorem completed_latch_witness :
    done1x1.completed = true ∧ imp1x1.completed = true :=
  ⟨by decide, completed_latch done1x1 ("I0,0".toList) imp1x1 (by decide) (by decide)⟩

/-- The command loop succeeds exactly when every command checks out:
`exec_cmds` on any state with the dimensions and black plane of `s0`
is `some` iff `goodCmds` accepts the command list over `s0`. -/
theorem exec_cmds_isSome_iff_good : ∀ (fuel : Nat) (s0 s : game_state) (cs : List Char),
    s.w = s0.w → s.h = s0.h →
    (∀ a b, (gridFlags s a b).black = (gridFlags s0 a b).black) →
    (exec_cmds fuel s cs).isSome = goodCmds fuel s0 cs := by
  intro fuel
  induction fuel with
  | zero =>
    intro s0 s cs hw hh hb
    cases cs with
    | nil => rfl
    | cons c cs2 => rfl
  | succ fuel ih =>
    intro s0 s cs hw hh hb
    cases cs with
    | nil => rfl
    | cons c cs2 =>
      rw [exec_cmds.eq_def, goodCmds.eq_def]
      simp only []
      by_cases hSc : c = 'S'
      · rw [if_pos hSc, if_pos hSc]
        cases cs2 with
        | nil => rfl
        | cons c2 r =>
          simp only []
          by_cases hsemi : c2 = ';'
          · rw [if_pos hsemi, if_pos hsemi]
            exact ih s0 { s with used_solve := true } r hw hh hb
          · rw [if_neg hsemi, if_neg hsemi]
            rfl
      · rw [if_neg hSc, if_neg hSc]
        by_cases hLI : c = 'L' ∨ c = 'I'
        · rw [if_pos hLI, if_pos hLI]
          rcases hp : parsePair cs2 with _ | ⟨xi, yi, rest⟩
          · rfl
          · simp only []
            have hrw : (xi < 0 ∨ yi < 0 ∨ (s.w : Int) ≤ xi ∨ (s.h : Int) ≤ yi) ↔
                (xi < 0 ∨ yi < 0 ∨ (s0.w : Int) ≤ xi ∨ (s0.h : Int) ≤ yi) := by
              rw [hw, hh]
            by_cases hr : xi < 0 ∨ yi < 0 ∨ (s.w : Int) ≤ xi ∨ (s.h : Int) ≤ yi
            · rw [if_pos hr, if_pos (hrw.mp hr)]
              rfl
            · rw [if_neg hr, if_neg (fun hq => hr (hrw.mpr hq))]
              by_cases hbl : (gridFlags s xi.toNat yi.toNat).black
              · have hbl0 : (gridFlags s0 xi.toNat yi.toNat).black = true := by
                  rw [← hb]
                  exact hbl
                rw [if_pos hbl, if_pos hbl0]
                rfl
              · have hbl0 : ¬((gridFlags s0 xi.toNat yi.toNat).black = true) := by
                  rw [← hb]
                  exact hbl
                rw [if_neg hbl, if_neg hbl0]
                cases rest with
                | nil => rfl
                | cons c2 r =>
                  simp only []
                  by_cases hsemi : c2 = ';'
                  · rw [if_pos hsemi, if_pos hsemi]
                    refine ih s0 _ r ?_ ?_ ?_
                    · by_cases hcL : c = 'L'
                      · rw [if_pos hcL]
                        rw [(set_light_fields _ _ _ _).1]
                        exact hw
                      · rw [if_neg hcL]
                        show (set_light s xi.toNat yi.toNat false).w = s0.w
                        rw [(set_light_fields _ _ _ _).1]
                        exact hw
                    · by_cases hcL : c = 'L'
                      · rw [if_pos hcL]
                        rw [(set_light_fields _ _ _ _).2.1]
                        exact hh
                      · rw [if_neg hcL]
                        show (set_light s xi.toNat yi.toNat false).h = s0.h
                        rw [(set_light_fields _ _ _ _).2.1]
                        exact hh
                    · intro a b
                      by_cases hcL : c = 'L'
                      · rw [if_pos hcL]
                        rw [blackEq_set_light a b,
                          @blackEq_putFlags s xi.toNat yi.toNat
                            { gridFlags s xi.toNat yi.toNat with impossible := false }
                            rfl a b]
                        exact hb a b
                      · rw [if_neg hcL]
                        rw [@blackEq_putFlags (set_light s xi.toNat yi.toNat false)
                            xi.toNat yi.toNat
                            { gridFlags (set_light s xi.toNat yi.toNat false)
                                xi.toNat yi.toNat with
                              impossible := !(gridFlags (set_light s xi.toNat yi.toNat
                                false) xi.toNat yi.toNat).impossible }
                            rfl a b,
                          blackEq_set_light a b]
                        exact hb a b
                  · rw [if_neg hsemi, if_neg hsemi]
                    rfl
        · rw [if_neg hLI, if_neg hLI]
          rfl

/-- `scanfInt` on an encoded natural number followed by a non-digit. -/
theorem scanfInt_natDec (n : Nat) (rest : List Char)
    (hr : ∀ c, rest.head? = some c → c.isDigit = false) :
    scanfInt (natDec n ++ rest) = some ((n : Int), rest) := by
  have hdig := natDec_digits n
  obtain ⟨c, tl, hnd⟩ : ∃ c tl, natDec n = c :: tl := by
    rcases h : natDec n with _ | ⟨c, tl⟩
    · exact absurd h (natDec_ne_nil n)
    · exact ⟨c, tl, rfl⟩
  have hcd : c.isDigit = true := hdig c (by rw [hnd]; simp)
  unfold scanfInt
  have hwdrop : (natDec n ++ rest).dropWhile isCWhite = c :: (tl ++ rest) := by
    rw [hnd, List.cons_append, List.dropWhile_cons, isDigit_not_cwhite hcd]
    simp
  rw [hwdrop]
  simp only [if_neg (isDigit_ne_minus hcd), if_neg (isDigit_ne_plus hcd)]
  unfold scanfDigits
  simp only [hcd, if_true]
  have : c :: (tl ++ rest) = natDec n ++ rest := by
    rw [hnd]
    rfl
  rw [this, readDigits_natDec, readDigits_stop hr]
  simp

/-- `sscanf("%d,%d%n")` on a pair of encoded coordinates. -/
theorem parsePair_natDec (x y : Nat) :
    parsePair (natDec x ++ ',' :: natDec y) = some ((x : Int), (y : Int), []) := by
  unfold parsePair
  rw [scanfInt_natDec x (',' :: natDec y)
    (by intro c hc; simp only [List.head?_cons, Option.some.injEq] at hc; subst hc; decide)]
  simp only [if_pos rfl]
  rw [show natDec y = natDec y ++ [] by simp,
    scanfInt_natDec y [] (by intro c hc; exact absurd hc (by simp))]
  simp

/-! ## Claim theorems: the light toggle on an impossible cell -/

/-- C2 (amended): for every state and in-range white cell `(x,y)` whose
`IMPOSSIBLE` flag is set and `LIGHT` flag clear, `execute_move` does *not*
reject `Lx,y` — it returns the state in which the `IMPOSSIBLE` mark has
been cleared and the light toggled on through `set_light` (followed by
the usual `completed` check).  The input state itself is untouched, the
executor working on a duplicate. -/
theorem light_toggle_clears_impossible (s : game_state) (x y : Nat)
    (hx : x < s.w) (hy : y < s.h)
    (hb : (gridFlags s x y).black = false)
    (hi : (gridFlags s x y).impossible = true)
    (hl : (gridFlags s x y).light = false) :
    execute_move s ('L' :: (natDec x ++ ',' :: natDec y)) =
      some
        (if grid_correct
            (set_light (putFlags s x y { gridFlags s x y with impossible := false })
              x y true) then
          { set_light (putFlags s x y { gridFlags s x y with impossible := false })
              x y true with completed := true }
        else
          set_light (putFlags s x y { gridFlags s x y with impossible := false })
            x y true) := by
  unfold execute_move
  rw [if_neg (by simp)]
  have hexec : exec_cmds ('L' :: (natDec x ++ ',' :: natDec y)).length s
      ('L' :: (natDec x ++ ',' :: natDec y)) =
      some (set_light (putFlags s x y { gridFlags s x y with impossible := false })
        x y true) := by
    rw [show ('L' :: (natDec x ++ ',' :: natDec y)).length =
      (natDec x ++ ',' :: natDec y).length + 1 from rfl]
    rw [exec_cmds.eq_def]
    simp only []
    rw [if_neg (by decide), if_pos (Or.inl trivial), parsePair_natDec]
    simp only []
    rw [if_neg (by push_neg; refine ⟨by omega, by omega, by omega, by omega⟩)]
    simp only [Int.toNat_natCast]
    rw [if_neg (by rw [hb]; simp)]
    simp only [if_pos rfl, hl]
    rfl
  rw [hexec]

/-- C2 (amended) witness: the toggle evaluated on the 2×2 game with the
`IMPOSSIBLE` mark at `(0,0)` set by the executed move `I0,0`. -/
theorem light_toggle_clears_impossible_witness :
    execute_move imp2x2 ('L' :: (natDec 0 ++ ',' :: natDec 0)) =
      some
        (if grid_correct
            (set_light (putFlags imp2x2 0 0 { gridFlags imp2x2 0 0 with impossible := false })
              0 0 true) then
          { set_light (putFlags imp2x2 0 0 { gridFlags imp2x2 0 0 with impossible := false })
              0 0 true with completed := true }
        else
          set_light (putFlags imp2x2 0 0 { gridFlags imp2x2 0 0 with impossible := false })
            0 0 true) :=
  light_toggle_clears_impossible imp2x2 0 0 (by decide) (by decide) (by decide)
    (by decide) (by decide)

/-! ## Claim theorems: move rejection -/

/-- C3: `execute_move` returns no state exactly when the move is empty or
some command of it is malformed, addresses an out-of-range coordinate, or
operates on a black cell (`goodMove` checks precisely these conditions
against the input state, whose black plane no command can change).  In the
functional model the input state is untouched by construction, so a
rejected move has no observable effect at all. -/
theorem execute_move_none_iff (s : game_state) (m : List Char) :
    execute_move s m = none ↔ (m = [] ∨ goodMove s m = false) := by
  unfold execute_move goodMove
  by_cases hm : m = []
  · rw [if_pos hm]
    simp [hm]
  · rw [if_neg hm]
    have hiff := exec_cmds_isSome_iff_good m.length s s m rfl rfl (fun _ _ => rfl)
    rcases he : exec_cmds m.length s m with _ | t <;> rw [he] at hiff
    · simp only [Option.isSome_none] at hiff
      simp [hm, ← hiff]
    · simp only [Option.isSome_some] at hiff
      simp [hm, ← hiff]

/-! ## Claim theorems: concrete evaluations -/

/-- C10: for every state, the empty move string is rejected —
`execute_move` returns no state. -/
theorem execute_move_empty_rejected (s : game_state) :
    execute_move s [] = none := by
  simp [execute_move]

/-- C5: on the 2×2 all-white grid, the solver with guessing allowed and
`require_unique = true` returns a value `≥ 2` (it finds both diagonal
solutions). -/
theorem two_by_two_solver_at_least_two :
    (dosolve 100 allWhite2x2 true true).isSome = true ∧
      2 ≤ ((dosolve 100 allWhite2x2 true true).map (fun r => r.1)).getD 0 := by
  constructor
  · decide
  · decide

/-- C1 (counterexample): a solver operation can leave `nlights` out of
step with the `LIGHT` flags.  On the fresh 2×2 all-white game —
reachable with no moves at all — `dosolve` with guessing allowed and
uniqueness not required (exactly the call `solve_game` makes) returns a
solved state whose `nlights` is 1 while two cells have `LIGHT` set:
`solve_sub` copies the solved copy's `lights` and `flags` planes into the
kept state without copying the copy's `nlights`. -/
theorem solver_breaks_nlights_invariant :
    ((dosolve 100 allWhite2x2 true false).map
      (fun r => (r.2.1.nlights, lightFlagCount r.2.1))) = some (1, 2) ∧
      (1 : Int) ≠ (2 : Nat) := by
  constructor
  · decide
  · decide

/-- C2 (counterexample): `execute_move` does *not* reject a light toggle
on an in-range white cell whose `IMPOSSIBLE` flag is set: on the 2×2 game
with an `IMPOSSIBLE` mark at `(0,0)`, the move `L0,0` succeeds. -/
theorem light_toggle_on_impossible_accepted :
    (gridFlags imp2x2 0 0).impossible = true ∧
      (gridFlags imp2x2 0 0).light = false ∧
      (gridFlags imp2x2 0 0).black = false ∧
      (0 : Nat) < imp2x2.w ∧ (0 : Nat) < imp2x2.h ∧
      (execute_move imp2x2 ("L0,0".toList)).isSome = true := by
  refine ⟨by decide, by decide, by decide, by decide, by decide, by decide⟩

/-! ## Claim theorems: set_light and the branching assertions -/

/-- C4: for every in-range non-black cell `(x,y)` of a well-formed state
and boolean `on`, `set_light` is a no-op when `on` equals the cell's
current `LIGHT` flag; otherwise it sets the cell's `LIGHT` flag to `on`
(leaving its other flag bits and every other cell's flags unchanged),
changes `nlights` by `+1` when turning on and `-1` when turning off, and
changes the lit count of exactly the cells visible from `(x,y)` — the
origin `(x,y)` included — each by that same `±1`. -/
theorem set_light_spec (s : game_state) (x y : Nat) (onv : Bool)
    (hx : x < s.w) (hy : y < s.h)
    (hnb : (gridFlags s x y).black = false)
    (hfl : s.flags.length = s.w * s.h) (hll : s.lights.length = s.w * s.h) :
    (onv = (gridFlags s x y).light → set_light s x y onv = s) ∧
    (onv ≠ (gridFlags s x y).light →
      gridFlags (set_light s x y onv) x y = { gridFlags s x y with light := onv } ∧
      (∀ a b, a < s.w → b < s.h → ¬(a = x ∧ b = y) →
        gridFlags (set_light s x y onv) a b = gridFlags s a b) ∧
      (set_light s x y onv).nlights = s.nlights + (if onv then 1 else -1) ∧
      (∀ a b, a < s.w → b < s.h →
        (sees s x y a b →
          gridLights (set_light s x y onv) a b =
            gridLights s a b + (if onv then 1 else -1)) ∧
        (¬ sees s x y a b →
          gridLights (set_light s x y onv) a b = gridLights s a b))) := by
  refine ⟨fun he => set_light_of_eq he, fun hne => ⟨?_, ?_, set_light_nlights hne, ?_⟩⟩
  · rw [gridFlags_set_light x y, if_neg hne,
      if_pos ⟨rfl, by rw [hfl]; exact gridIdx_lt hx hy⟩]
  · intro a b ha hb2 habne
    have hcol : ¬(y * s.w + x = b * s.w + a ∧ y * s.w + x < s.flags.length) := by
      intro hq
      obtain ⟨e1, e2⟩ := gridIdx_inj hx ha hq.1
      exact habne ⟨e1.symm, e2.symm⟩
    rw [gridFlags_set_light a b, if_neg hne, if_neg hcol]
  · intro a b ha hb2
    exact set_light_lights hne hx hy hnb hfl hll a b ha hb2

/-- C4 witness: `set_light` turning on the top-left light of the fresh
2×2 all-white game, with every hypothesis checked there. -/
theorem set_light_spec_witness :
    ((0 : Nat) < allWhite2x2.w ∧ (0 : Nat) < allWhite2x2.h ∧
      (gridFlags allWhite2x2 0 0).black = false ∧
      allWhite2x2.flags.length = allWhite2x2.w * allWhite2x2.h ∧
      allWhite2x2.lights.length = allWhite2x2.w * allWhite2x2.h ∧
      (true : Bool) ≠ (gridFlags allWhite2x2 0 0).light) ∧
    (set_light allWhite2x2 0 0 true).nlights = allWhite2x2.nlights + 1 :=
  ⟨⟨by decide, by decide, by decide, by decide, by decide, by decide⟩, by
    have h := set_light_spec allWhite2x2 0 0 true (by decide) (by decide) (by decide)
      (by decide) (by decide)
    have h2 := (h.2 (by decide)).2.2.1
    simpa using h2⟩

/-- C9: whenever `solve_sub` reaches the branching step with every lit
count nonnegative and at least one in-range cell where a light could
still be placed, the branch-cell scan ends with `bestn > 0`, `bestx ≥ 0`
and `besty ≥ 0` — the C assertions cannot fail, because a placeable cell
is itself unlit and so scores at least one. -/
theorem choose_best_spec (s : game_state)
    (hnn : ∀ a, a < s.w → ∀ b, b < s.h → 0 ≤ gridLights s a b)
    (hex : ∃ cx, cx < s.w ∧ ∃ cy, cy < s.h ∧
      could_place_light (gridFlags s cx cy) (gridLights s cx cy) = true) :
    0 < (choose_best s).1 ∧ 0 ≤ (choose_best s).2.1 ∧ 0 ≤ (choose_best s).2.2 := by
  obtain ⟨cx, hcx, cy, hcy, hcpl⟩ := hex
  have hbs : 0 < branch_score s (cx, cy) :=
    branch_score_pos hcx hcy (hnn cx hcx cy hcy) hcpl
  have hmem : (cx, cy) ∈ cellList s := mem_cellList.mpr ⟨hcx, hcy⟩
  obtain ⟨l1, l2, hsplit⟩ := List.append_of_mem hmem
  unfold choose_best
  rw [hsplit, List.foldl_append, List.foldl_cons]
  exact choose_best_good s l2 _
    (choose_best_step_good s _ cx cy hcpl hbs
      (choose_best_inv s l1 (0, -1, -1) (Or.inl rfl)))

/-- C9 witness: the branching-step preconditions and conclusion checked
on the fresh 2×2 all-white game. -/
theorem choose_best_spec_witness :
    ((∀ a, a < allWhite2x2.w → ∀ b, b < allWhite2x2.h →
        0 ≤ gridLights allWhite2x2 a b) ∧
      (∃ cx, cx < allWhite2x2.w ∧ ∃ cy, cy < allWhite2x2.h ∧
        could_place_light (gridFlags allWhite2x2 cx cy)
          (gridLights allWhite2x2 cx cy) = true)) ∧
    (0 < (choose_best allWhite2x2).1 ∧ 0 ≤ (choose_best allWhite2x2).2.1 ∧
      0 ≤ (choose_best allWhite2x2).2.2) :=
  ⟨⟨by decide, by decide⟩, choose_best_spec allWhite2x2 (by decide) (by decide)⟩

end Lightup
